import Mathlib

/-!
Verification of the task scheduler in `src/coordination/scheduler.ts`
(`TaskScheduler`). The scheduler state (the four JS `Map`/`Set` indices,
armed timers, emitted events) is embedded as a Lean structure, JS `Map`s
as association lists keeping insertion order and `Set`s as duplicate-free
lists keeping insertion order, matching JS iteration semantics. Timestamps
(`new Date()`) are modelled by a `now : Nat` argument; `setTimeout` handles
are modelled by fresh numeric timer ids recorded in a list of live timers,
and `clearTimeout` removes the id from that list. Mutations the code performs
on a `ScheduledTask` object just before dropping it from the active index
(observable to callers holding the object) are recorded in a ghost `archive`
field. Emitted events are recorded in an `events` list.
-/

deriving instance DecidableEq for Except

namespace Scheduler

/-- Task status values from `TaskStatus` in `utils/types.ts`. -/
inductive TaskStatus where
  | pending
  | queued
  | assigned
  | running
  | completed
  | failed
  | cancelled
deriving DecidableEq, Repr

/-- A task, from the `Task` interface: id, dependency ids, status, and the
fields the scheduler writes. The opaque `output` payload is modelled as `Nat`
and the error object as `String`. -/
structure Task where
  id : String
  dependencies : List String
  status : TaskStatus
  assignedAgent : Option String := none
  startedAt : Option Nat := none
  completedAt : Option Nat := none
  output : Option Nat := none
  error : Option String := none
deriving DecidableEq, Repr

/-- `ScheduledTask` record from scheduler.ts: the task, its agent, the
attempt counter, the last attempt time and the armed execution-timeout
handle (a timer id here). -/
structure ScheduledTask where
  task : Task
  agentId : String
  attempts : Nat
  lastAttempt : Option Nat := none
  timeout : Option Nat := none
deriving DecidableEq, Repr

/-- The configuration fields of `CoordinationConfig` the scheduler reads. -/
structure CoordinationConfig where
  maxRetries : Nat
  retryDelay : Nat
  resourceTimeout : Nat
deriving DecidableEq, Repr

/-- What a live `setTimeout` callback would do: fail the task on execution
timeout, or re-invoke `startTask` for a retry. -/
inductive TimerKind where
  | execTimeout
  | retry
deriving DecidableEq, Repr

/-- A live timer: its handle id, what it does, the task it targets and its
delay in milliseconds. -/
structure TimerEntry where
  id : Nat
  kind : TimerKind
  taskId : String
  delay : Nat
deriving DecidableEq, Repr

/-- Events emitted on the event bus by the scheduler. -/
inductive Event where
  | taskStarted (taskId : String) (agentId : String)
  | taskCancelled (taskId : String) (reason : String)
  | taskCreated (task : Task)
deriving DecidableEq, Repr

/-- Errors thrown by the scheduler: `TaskDependencyError(taskId, unmet)` and
`TaskError(message)` (thrown with message `"Task not found: " ++ id`). -/
inductive SchedulerError where
  | taskDependencyError (taskId : String) (unmet : List String)
  | taskError (message : String)
deriving DecidableEq, Repr

/-- JS `Map.get`: the value at the first (unique) entry for the key. -/
def mapGet {α : Type} : List (String × α) → String → Option α
  | [], _ => none
  | (k', v) :: rest, k => if k' = k then some v else mapGet rest k

/-- JS `Map.set`: update in place if the key exists, else append. -/
def mapSet {α : Type} : List (String × α) → String → α → List (String × α)
  | [], k, v => [(k, v)]
  | (k', v') :: rest, k, v =>
    if k' = k then (k, v) :: rest else (k', v') :: mapSet rest k v

/-- JS `Map.delete`: remove the entry for the key. -/
def mapDelete {α : Type} : List (String × α) → String → List (String × α)
  | [], _ => []
  | (k', v) :: rest, k =>
    if k' = k then mapDelete rest k else (k', v) :: mapDelete rest k

/-- JS `Set.add`: append unless already present (insertion order kept). -/
def setAdd (s : List String) (x : String) : List String :=
  if x ∈ s then s else s ++ [x]

/-- JS `Set.delete`: remove the element. -/
def setDelete : List String → String → List String
  | [], _ => []
  | y :: rest, x => if y = x then setDelete rest x else y :: setDelete rest x

/-- The whole mutable state of a `TaskScheduler` instance, plus the ghost
`timers`, `events` and `archive` observations. -/
structure SchedulerState where
  tasks : List (String × ScheduledTask)
  agentTasks : List (String × List String)
  taskDependencies : List (String × List String)
  completedTasks : List String
  timers : List TimerEntry
  nextTimerId : Nat
  events : List Event
  archive : List (String × ScheduledTask)
deriving DecidableEq, Repr

/-- The state of a freshly constructed scheduler. -/
def SchedulerState.empty : SchedulerState :=
  { tasks := [], agentTasks := [], taskDependencies := [], completedTasks := []
  , timers := [], nextTimerId := 0, events := [], archive := [] }

/-- `clearTimeout` on an optional stored handle: drop the timer from the
live list (a no-op when no handle is stored or the timer already fired). -/
def clearStoredTimeout (timers : List TimerEntry) : Option Nat → List TimerEntry
  | none => timers
  | some tid => timers.filter (fun e => decide (e.id ≠ tid))

/-- `this.agentTasks.get(agentId)?.delete(taskId)`: remove the task id from
the agent's set when the agent has one (the key itself stays). -/
def agentSetDelete (m : List (String × List String)) (agentId taskId : String) :
    List (String × List String) :=
  match mapGet m agentId with
  | none => m
  | some s => mapSet m agentId (setDelete s taskId)

/-- `canStartTask(task)`: all dependencies are in the completed-id set. -/
def canStartTask (s : SchedulerState) (task : Task) : Bool :=
  task.dependencies.all (fun depId => decide (depId ∈ s.completedTasks))

/-- `startTask(taskId)`: no-op when the id is not active; otherwise set
status `running` and `startedAt`, emit `task started` with task and agent
id, and arm the execution-timeout timer (delay `config.resourceTimeout`),
storing the fresh handle in `scheduled.timeout`. -/
def startTask (cfg : CoordinationConfig) (taskId : String) (now : Nat)
    (s : SchedulerState) : SchedulerState :=
  match mapGet s.tasks taskId with
  | none => s
  | some sched =>
    let task' := { sched.task with status := .running, startedAt := some now }
    let tid := s.nextTimerId
    let sched' := { sched with task := task', timeout := some tid }
    { s with
      tasks := mapSet s.tasks taskId sched'
      events := s.events ++ [Event.taskStarted taskId sched.agentId]
      timers := s.timers ++
        [{ id := tid, kind := .execTimeout, taskId := taskId
         , delay := cfg.resourceTimeout }]
      nextTimerId := tid + 1 }

/-- The mutation path of `assignTask` after the dependency check passed:
store the `ScheduledTask` with `attempts = 0` and status `assigned`, add the
id to the agent's set (creating the set if absent), register a reverse edge
`dependency -> task.id` for each dependency, then call `startTask`. -/
def registerTask (cfg : CoordinationConfig) (t : Task) (agentId : String)
    (now : Nat) (s : SchedulerState) : SchedulerState :=
  let sched : ScheduledTask :=
    { task := { t with status := .assigned, assignedAgent := some agentId }
    , agentId := agentId, attempts := 0 }
  let s1 := { s with tasks := mapSet s.tasks t.id sched }
  let agentSet := (mapGet s1.agentTasks agentId).getD []
  let s2 := { s1 with agentTasks := mapSet s1.agentTasks agentId (setAdd agentSet t.id) }
  let s3 := { s2 with
    taskDependencies := t.dependencies.foldl
      (fun m d => mapSet m d (setAdd ((mapGet m d).getD []) t.id))
      s2.taskDependencies }
  startTask cfg t.id now s3

/-- `assignTask(task, agentId)`: when the dependency list is non-empty and
some dependency id is not in the completed-id set, throw
`TaskDependencyError(task.id, unmet)`; otherwise register and start. -/
def assignTask (cfg : CoordinationConfig) (t : Task) (agentId : String)
    (now : Nat) (s : SchedulerState) : Except SchedulerError SchedulerState :=
  if 0 < t.dependencies.length then
    let unmet := t.dependencies.filter (fun depId => decide (depId ∉ s.completedTasks))
    if 0 < unmet.length then
      .error (.taskDependencyError t.id unmet)
    else
      .ok (registerTask cfg t agentId now s)
  else
    .ok (registerTask cfg t agentId now s)

/-- The body of the dependent-scan loop at the end of `completeTask`: start
the dependent when it is still active and all its dependencies are now
completed. -/
def dependentStep (cfg : CoordinationConfig) (now : Nat) (st : SchedulerState)
    (depId : String) : SchedulerState :=
  match mapGet st.tasks depId with
  | some dep => if canStartTask st dep.task then startTask cfg depId now st else st
  | none => st

/-- `completeTask(taskId, result)`: throw `TaskError("Task not found: ...")`
when the id is not active; otherwise set status `completed` with output and
`completedAt`, clear the armed timeout, remove the task from the active and
agent indices, add the id to the completed set, then start each dependent
that is still active and whose dependencies are now all completed. -/
def completeTask (cfg : CoordinationConfig) (taskId : String) (result : Nat)
    (now : Nat) (s : SchedulerState) :
    Except SchedulerError SchedulerState :=
  match mapGet s.tasks taskId with
  | none => .error (.taskError ("Task not found: " ++ taskId))
  | some sched =>
    let task' := { sched.task with
      status := .completed, output := some result, completedAt := some now }
    let sched' := { sched with task := task' }
    let s1 := { s with
      timers := clearStoredTimeout s.timers sched.timeout
      tasks := mapDelete s.tasks taskId
      agentTasks := agentSetDelete s.agentTasks sched.agentId taskId
      completedTasks := setAdd s.completedTasks taskId
      archive := s.archive ++ [(taskId, sched')] }
    let dependents := (mapGet s1.taskDependencies taskId).getD []
    .ok (dependents.foldl (dependentStep cfg now) s1)

/-- `cancelTask` with explicit recursion fuel (the cascade into
`cancelDependentTasks` recurses through the dependency graph; the JS code
terminates because a cancelled task leaves the active index before the
recursive calls). No-op when the id is not active; otherwise clear the
timeout, set status `cancelled` with `completedAt`, emit `task cancelled`
with the reason, remove the task from the active and agent indices, and
cancel each registered dependent with reason `"Parent task cancelled"`. -/
def cancelTaskF (cfg : CoordinationConfig) :
    Nat → String → String → Nat → SchedulerState → SchedulerState
  | 0, _, _, _, s => s
  | fuel + 1, taskId, reason, now, s =>
    match mapGet s.tasks taskId with
    | none => s
    | some sched =>
      let task' := { sched.task with status := .cancelled, completedAt := some now }
      let sched' := { sched with task := task' }
      let s1 := { s with
        timers := clearStoredTimeout s.timers sched.timeout
        events := s.events ++ [Event.taskCancelled taskId reason]
        tasks := mapDelete s.tasks taskId
        agentTasks := agentSetDelete s.agentTasks sched.agentId taskId
        archive := s.archive ++ [(taskId, sched')] }
      ((mapGet s1.taskDependencies taskId).getD []).foldl
        (fun st depId => cancelTaskF cfg fuel depId "Parent task cancelled" now st) s1

/-- `cancelDependentTasks(taskId, reason)`: cancel every registered dependent
of the id with the given reason, in registration order. -/
def cancelDependentTasks (cfg : CoordinationConfig) (fuel : Nat)
    (taskId reason : String) (now : Nat) (s : SchedulerState) : SchedulerState :=
  ((mapGet s.taskDependencies taskId).getD []).foldl
    (fun st depId => cancelTaskF cfg fuel depId reason now st) s

/-- `cancelTask(taskId, reason)`, with fuel one more than the number of
active tasks — enough for the cascade, since each recursion level removes
one active task before recursing. -/
def cancelTask (cfg : CoordinationConfig) (taskId reason : String) (now : Nat)
    (s : SchedulerState) : SchedulerState :=
  cancelTaskF cfg (s.tasks.length + 1) taskId reason now s

/-- `failTask(taskId, error)`: throw `TaskError("Task not found: ...")` when
the id is not active; otherwise clear the timeout, bump `attempts` and stamp
`lastAttempt`; when the bumped count is below `maxRetries`, schedule a retry
timer with delay `retryDelay * 2^(attempts - 1)` (the handle is not stored
in `scheduled.timeout`) and keep the task registered; otherwise set status
`failed` with error and `completedAt`, drop the task from the active and
agent indices and cancel the dependents with reason `"Parent task failed"`. -/
def failTask (cfg : CoordinationConfig) (taskId : String) (err : String)
    (now : Nat) (s : SchedulerState) :
    Except SchedulerError SchedulerState :=
  match mapGet s.tasks taskId with
  | none => .error (.taskError ("Task not found: " ++ taskId))
  | some sched =>
    let s1 := { s with timers := clearStoredTimeout s.timers sched.timeout }
    let attempts' := sched.attempts + 1
    let sched1 := { sched with attempts := attempts', lastAttempt := some now }
    if attempts' < cfg.maxRetries then
      let retryDelay := cfg.retryDelay * 2 ^ (attempts' - 1)
      let tid := s1.nextTimerId
      .ok { s1 with
        tasks := mapSet s1.tasks taskId sched1
        timers := s1.timers ++
          [{ id := tid, kind := .retry, taskId := taskId, delay := retryDelay }]
        nextTimerId := tid + 1 }
    else
      let task' := { sched1.task with
        status := .failed, error := some err, completedAt := some now }
      let sched2 := { sched1 with task := task' }
      let s2 := { s1 with
        tasks := mapDelete s1.tasks taskId
        agentTasks := agentSetDelete s1.agentTasks sched.agentId taskId
        archive := s1.archive ++ [(taskId, sched2)] }
      .ok (cancelDependentTasks cfg (s2.tasks.length + 1) taskId
        "Parent task failed" now s2)

/-- The per-task body of `rescheduleAgentTasks`: an active `running` task
is reset to `queued` with `attempts = 0` and a `task created` event is
re-emitted with the mutated task. The armed execution timeout is not
cleared. -/
def rescheduleStep (st : SchedulerState) (taskId : String) : SchedulerState :=
  match mapGet st.tasks taskId with
  | some sched =>
    if sched.task.status = .running then
      let task' := { sched.task with status := .queued }
      let sched' := { sched with task := task', attempts := 0 }
      { st with
        tasks := mapSet st.tasks taskId sched'
        events := st.events ++ [Event.taskCreated task'] }
    else st
  | none => st

/-- `rescheduleAgentTasks(agentId)`: apply `rescheduleStep` to each of the
agent's task ids. -/
def rescheduleAgentTasks (agentId : String) (s : SchedulerState) : SchedulerState :=
  match mapGet s.agentTasks agentId with
  | none => s
  | some taskIds =>
    if taskIds.length = 0 then s
    else taskIds.foldl rescheduleStep s

/-- `getAgentTaskCount(agentId)`. -/
def getAgentTaskCount (s : SchedulerState) (agentId : String) : Nat :=
  ((mapGet s.agentTasks agentId).getD []).length

/-- The metrics record built by `getHealthStatus`: the three gauges plus the
per-status counters (the `completed` counter is initialized to the size of
the completed-id set and then incremented per active task of that status). -/
structure HealthMetrics where
  activeTasks : Nat
  completedTasks : Nat
  agentsWithTasks : Nat
  pending : Nat
  queued : Nat
  assigned : Nat
  running : Nat
  completed : Nat
  failed : Nat
  cancelled : Nat
deriving DecidableEq, Repr

/-- The value `getHealthStatus()` resolves with. -/
structure HealthStatus where
  healthy : Bool
  metrics : HealthMetrics
deriving DecidableEq, Repr

/-- Number of active tasks whose status is `st`. -/
def countActiveWithStatus (s : SchedulerState) (st : TaskStatus) : Nat :=
  (s.tasks.filter (fun p => decide (p.2.task.status = st))).length

/-- `getHealthStatus()`: always `healthy: true`, with the metrics record. -/
def getHealthStatus (s : SchedulerState) : HealthStatus :=
  { healthy := true
  , metrics :=
    { activeTasks := s.tasks.length
    , completedTasks := s.completedTasks.length
    , agentsWithTasks := s.agentTasks.length
    , pending := countActiveWithStatus s .pending
    , queued := countActiveWithStatus s .queued
    , assigned := countActiveWithStatus s .assigned
    , running := countActiveWithStatus s .running
    , completed := s.completedTasks.length + countActiveWithStatus s .completed
    , failed := countActiveWithStatus s .failed
    , cancelled := countActiveWithStatus s .cancelled } }

/-- One iteration of the eviction loop in `cleanup()`: the iterator has
yielded `r`; the body `if (!result.done && result.value)` only deletes when
the value is truthy, so a falsy id — the empty string — is skipped and
stays in the completed set with its reverse-dependency entry. -/
def evictStep (st : SchedulerState) (r : String) : SchedulerState :=
  if r ≠ "" then
    { st with
      completedTasks := setDelete st.completedTasks r
      taskDependencies := mapDelete st.taskDependencies r }
  else st

/-- `cleanup()`: when the completed-id set holds more than 1000 ids, walk
the oldest surplus ids (iteration order of a JS `Set` is insertion order;
deleting the just-visited element does not disturb the iterator) and evict
each truthy one together with its reverse-dependency entry. -/
def cleanup (s : SchedulerState) : SchedulerState :=
  if 1000 < s.completedTasks.length then
    let toRemove := s.completedTasks.length - 1000
    (s.completedTasks.take toRemove).foldl evictStep s
  else s

/-! ### Association-list and set lemmas -/

theorem mapGet_mapSet_self {α : Type} (m : List (String × α)) (k : String) (v : α) :
    mapGet (mapSet m k v) k = some v := by
  induction m with
  | nil => simp [mapSet, mapGet]
  | cons p rest ih =>
    obtain ⟨k', v'⟩ := p
    by_cases h : k' = k
    · simp [mapSet, h, mapGet]
    · simp [mapSet, h, mapGet, ih]

theorem mapGet_mapSet_ne {α : Type} (m : List (String × α)) {j k : String}
    (h : j ≠ k) (v : α) : mapGet (mapSet m k v) j = mapGet m j := by
  induction m with
  | nil => simp [mapSet, mapGet, Ne.symm h]
  | cons p rest ih =>
    obtain ⟨k', v'⟩ := p
    by_cases hk : k' = k
    · subst hk
      simp [mapSet, mapGet, Ne.symm h]
    · simp [mapSet, hk, mapGet, ih]

theorem mapGet_mapDelete_self {α : Type} (m : List (String × α)) (k : String) :
    mapGet (mapDelete m k) k = none := by
  induction m with
  | nil => simp [mapDelete, mapGet]
  | cons p rest ih =>
    obtain ⟨k', v'⟩ := p
    by_cases h : k' = k
    · simp [mapDelete, h, ih]
    · simp [mapDelete, h, mapGet, ih]

theorem mapGet_mapDelete_ne {α : Type} (m : List (String × α)) {j k : String}
    (h : j ≠ k) : mapGet (mapDelete m k) j = mapGet m j := by
  induction m with
  | nil => simp [mapDelete]
  | cons p rest ih =>
    obtain ⟨k', v'⟩ := p
    by_cases hk : k' = k
    · subst hk
      simp [mapDelete, mapGet, Ne.symm h, ih]
    · simp [mapDelete, hk, mapGet, ih]

theorem mem_setAdd {s : List String} {x y : String} :
    y ∈ setAdd s x ↔ y ∈ s ∨ y = x := by
  unfold setAdd
  by_cases h : x ∈ s
  · simp only [if_pos h]
    constructor
    · exact fun hy => Or.inl hy
    · rintro (hy | rfl) <;> [exact hy; exact h]
  · simp [if_neg h]

theorem mem_setDelete {s : List String} {x y : String} :
    y ∈ setDelete s x ↔ y ∈ s ∧ y ≠ x := by
  induction s with
  | nil => simp [setDelete]
  | cons z rest ih =>
    simp only [setDelete]
    by_cases h : z = x
    · rw [if_pos h]
      subst h
      rw [ih]
      simp only [List.mem_cons]
      tauto
    · rw [if_neg h]
      simp only [List.mem_cons, ih]
      constructor
      · rintro (rfl | ⟨hy, hne⟩)
        · exact ⟨Or.inl rfl, h⟩
        · exact ⟨Or.inr hy, hne⟩
      · rintro ⟨rfl | hy, hne⟩
        · exact Or.inl rfl
        · exact Or.inr ⟨hy, hne⟩

theorem isSome_mapGet_of_mem {α : Type} {m : List (String × α)} {p : String × α}
    (h : p ∈ m) : (mapGet m p.1).isSome := by
  induction m with
  | nil => simp at h
  | cons q rest ih =>
    obtain ⟨k', v'⟩ := q
    rcases List.mem_cons.mp h with rfl | h'
    · simp [mapGet]
    · by_cases hk : k' = p.1
      · simp [mapGet, hk]
      · simp [mapGet, hk, ih h']

theorem mem_of_mapGet_eq_some {α : Type} {m : List (String × α)} {k : String}
    {v : α} (h : mapGet m k = some v) : (k, v) ∈ m := by
  induction m with
  | nil => simp [mapGet] at h
  | cons q rest ih =>
    obtain ⟨k', v'⟩ := q
    simp only [mapGet] at h
    by_cases hk : k' = k
    · rw [if_pos hk] at h
      injection h with h
      subst hk
      subst h
      exact List.mem_cons_self _ _
    · rw [if_neg hk] at h
      exact List.mem_cons_of_mem _ (ih h)

theorem isSome_mapGet_mapSet_of_isSome {α : Type} (m : List (String × α))
    {k : String} (v : α) (hk : (mapGet m k).isSome) (j : String) :
    (mapGet (mapSet m k v) j).isSome = (mapGet m j).isSome := by
  by_cases h : j = k
  · subst h
    simp [mapGet_mapSet_self, hk]
  · rw [mapGet_mapSet_ne m h]

theorem isSome_of_mapGet_mapSet {α : Type} (m : List (String × α))
    {k : String} {v : α} {j : String}
    (h : (mapGet (mapSet m k v) j).isSome) :
    j = k ∨ (mapGet m j).isSome := by
  by_cases hk : j = k
  · exact Or.inl hk
  · rw [mapGet_mapSet_ne m hk] at h
    exact Or.inr h

/-- Generic preservation of an invariant by `List.foldl`. -/
theorem foldl_preserve {α β : Type} {P : β → Prop} {f : β → α → β}
    (h : ∀ b a, P b → P (f b a)) :
    ∀ (l : List α) (b : β), P b → P (l.foldl f b) := by
  intro l
  induction l with
  | nil => intro b hb; exact hb
  | cons x rest ih => intro b hb; exact ih (f b x) (h b x hb)

/-! ### Structural lemmas about `startTask` -/

theorem startTask_completedTasks (cfg : CoordinationConfig) (taskId : String)
    (now : Nat) (s : SchedulerState) :
    (startTask cfg taskId now s).completedTasks = s.completedTasks := by
  unfold startTask
  split <;> rfl

theorem startTask_agentTasks (cfg : CoordinationConfig) (taskId : String)
    (now : Nat) (s : SchedulerState) :
    (startTask cfg taskId now s).agentTasks = s.agentTasks := by
  unfold startTask
  split <;> rfl

theorem startTask_taskDependencies (cfg : CoordinationConfig) (taskId : String)
    (now : Nat) (s : SchedulerState) :
    (startTask cfg taskId now s).taskDependencies = s.taskDependencies := by
  unfold startTask
  split <;> rfl

theorem startTask_archive (cfg : CoordinationConfig) (taskId : String)
    (now : Nat) (s : SchedulerState) :
    (startTask cfg taskId now s).archive = s.archive := by
  unfold startTask
  split <;> rfl

theorem startTask_events_mono (cfg : CoordinationConfig) (taskId : String)
    (now : Nat) (s : SchedulerState) {e : Event} (he : e ∈ s.events) :
    e ∈ (startTask cfg taskId now s).events := by
  unfold startTask
  split
  · exact he
  · exact List.mem_append_left _ he

theorem startTask_timers_mono (cfg : CoordinationConfig) (taskId : String)
    (now : Nat) (s : SchedulerState) {e : TimerEntry} (he : e ∈ s.timers) :
    e ∈ (startTask cfg taskId now s).timers := by
  unfold startTask
  split
  · exact he
  · exact List.mem_append_left _ he

theorem startTask_timers_new (cfg : CoordinationConfig) (taskId : String)
    (now : Nat) (s : SchedulerState) {e : TimerEntry}
    (he : e ∈ (startTask cfg taskId now s).timers) :
    e ∈ s.timers ∨ e.id = s.nextTimerId := by
  unfold startTask at he
  split at he
  · exact Or.inl he
  · rcases List.mem_append.mp he with h | h
    · exact Or.inl h
    · simp only [List.mem_singleton] at h
      subst h
      exact Or.inr rfl

theorem startTask_nextTimerId (cfg : CoordinationConfig) (taskId : String)
    (now : Nat) (s : SchedulerState) :
    s.nextTimerId ≤ (startTask cfg taskId now s).nextTimerId := by
  unfold startTask
  split
  · exact Nat.le_refl _
  · exact Nat.le_succ _

theorem startTask_tasks_ne (cfg : CoordinationConfig) (taskId : String)
    (now : Nat) (s : SchedulerState) {j : String} (hj : j ≠ taskId) :
    mapGet (startTask cfg taskId now s).tasks j = mapGet s.tasks j := by
  unfold startTask
  split
  · rfl
  · exact mapGet_mapSet_ne _ hj _

theorem startTask_tasks_isSome (cfg : CoordinationConfig) (taskId : String)
    (now : Nat) (s : SchedulerState) (j : String) :
    (mapGet (startTask cfg taskId now s).tasks j).isSome =
      (mapGet s.tasks j).isSome := by
  unfold startTask
  split
  · rfl
  · next sched hm =>
    exact isSome_mapGet_mapSet_of_isSome _ _ (by rw [hm]; rfl) j

/-! ### Structural lemmas about `agentSetDelete` -/

theorem agentSetDelete_self_notMem (m : List (String × List String))
    (agentId taskId : String) :
    taskId ∉ (mapGet (agentSetDelete m agentId taskId) agentId).getD [] := by
  unfold agentSetDelete
  split
  · next hm => simp [hm]
  · next st hm =>
    rw [mapGet_mapSet_self]
    intro hmem
    exact (mem_setDelete.mp hmem).2 rfl

theorem agentSetDelete_notMem_preserved (m : List (String × List String))
    (agentId taskId : String) {a x : String}
    (h : x ∉ (mapGet m a).getD []) :
    x ∉ (mapGet (agentSetDelete m agentId taskId) a).getD [] := by
  unfold agentSetDelete
  split
  · exact h
  · next st hm =>
    by_cases ha : a = agentId
    · subst ha
      rw [mapGet_mapSet_self]
      intro hmem
      exact h (by rw [hm]; exact (mem_setDelete.mp hmem).1)
    · rw [mapGet_mapSet_ne _ ha]
      exact h

/-! ### Structural lemmas about `clearStoredTimeout` and `dependentStep` -/

theorem clearStoredTimeout_sub {t : List TimerEntry} {o : Option Nat}
    {e : TimerEntry} (he : e ∈ clearStoredTimeout t o) : e ∈ t := by
  cases o with
  | none => exact he
  | some tid => exact List.mem_of_mem_filter he

theorem mem_clearStoredTimeout_some {t : List TimerEntry} {tid : Nat}
    {e : TimerEntry} :
    e ∈ clearStoredTimeout t (some tid) ↔ e ∈ t ∧ e.id ≠ tid := by
  simp [clearStoredTimeout, List.mem_filter]

theorem dependentStep_completedTasks (cfg : CoordinationConfig) (now : Nat)
    (st : SchedulerState) (d : String) :
    (dependentStep cfg now st d).completedTasks = st.completedTasks := by
  unfold dependentStep
  split
  · split
    · exact startTask_completedTasks _ _ _ _
    · rfl
  · rfl

theorem dependentStep_agentTasks (cfg : CoordinationConfig) (now : Nat)
    (st : SchedulerState) (d : String) :
    (dependentStep cfg now st d).agentTasks = st.agentTasks := by
  unfold dependentStep
  split
  · split
    · exact startTask_agentTasks _ _ _ _
    · rfl
  · rfl

theorem dependentStep_taskDependencies (cfg : CoordinationConfig) (now : Nat)
    (st : SchedulerState) (d : String) :
    (dependentStep cfg now st d).taskDependencies = st.taskDependencies := by
  unfold dependentStep
  split
  · split
    · exact startTask_taskDependencies _ _ _ _
    · rfl
  · rfl

theorem dependentStep_archive (cfg : CoordinationConfig) (now : Nat)
    (st : SchedulerState) (d : String) :
    (dependentStep cfg now st d).archive = st.archive := by
  unfold dependentStep
  split
  · split
    · exact startTask_archive _ _ _ _
    · rfl
  · rfl

theorem dependentStep_events_mono (cfg : CoordinationConfig) (now : Nat)
    (st : SchedulerState) (d : String) {e : Event} (he : e ∈ st.events) :
    e ∈ (dependentStep cfg now st d).events := by
  unfold dependentStep
  split
  · split
    · exact startTask_events_mono _ _ _ _ he
    · exact he
  · exact he

theorem dependentStep_timers_mono (cfg : CoordinationConfig) (now : Nat)
    (st : SchedulerState) (d : String) {e : TimerEntry} (he : e ∈ st.timers) :
    e ∈ (dependentStep cfg now st d).timers := by
  unfold dependentStep
  split
  · split
    · exact startTask_timers_mono _ _ _ _ he
    · exact he
  · exact he

theorem dependentStep_timers_new (cfg : CoordinationConfig) (now : Nat)
    (st : SchedulerState) (d : String) {e : TimerEntry}
    (he : e ∈ (dependentStep cfg now st d).timers) :
    e ∈ st.timers ∨ e.id = st.nextTimerId := by
  unfold dependentStep at he
  split at he
  · split at he
    · exact startTask_timers_new _ _ _ _ he
    · exact Or.inl he
  · exact Or.inl he

theorem dependentStep_nextTimerId (cfg : CoordinationConfig) (now : Nat)
    (st : SchedulerState) (d : String) :
    st.nextTimerId ≤ (dependentStep cfg now st d).nextTimerId := by
  unfold dependentStep
  split
  · split
    · exact startTask_nextTimerId _ _ _ _
    · exact Nat.le_refl _
  · exact Nat.le_refl _

theorem dependentStep_tasks_isSome (cfg : CoordinationConfig) (now : Nat)
    (st : SchedulerState) (d : String) (j : String) :
    (mapGet (dependentStep cfg now st d).tasks j).isSome =
      (mapGet st.tasks j).isSome := by
  unfold dependentStep
  split
  · split
    · exact startTask_tasks_isSome _ _ _ _ j
    · rfl
  · rfl

theorem dependentStep_tasks_ne (cfg : CoordinationConfig) (now : Nat)
    (st : SchedulerState) (d : String) {j : String} (hj : j ≠ d) :
    mapGet (dependentStep cfg now st d).tasks j = mapGet st.tasks j := by
  unfold dependentStep
  split
  · split
    · exact startTask_tasks_ne _ _ _ _ hj
    · rfl
  · rfl

/-! ### Structural lemmas about the cancellation cascade -/

theorem cancelTaskF_completedTasks (cfg : CoordinationConfig) :
    ∀ (fuel : Nat) (taskId reason : String) (now : Nat) (s : SchedulerState),
    (cancelTaskF cfg fuel taskId reason now s).completedTasks = s.completedTasks := by
  intro fuel
  induction fuel with
  | zero => intro _ _ _ _; rfl
  | succ fuel ih =>
    intro taskId reason now s
    unfold cancelTaskF
    split
    · rfl
    · dsimp only
      refine foldl_preserve
        (P := fun st => st.completedTasks = s.completedTasks)
        (fun st d hp => (ih d _ now st).trans hp) _ _ ?_
      rfl

theorem cancelTaskF_taskDependencies (cfg : CoordinationConfig) :
    ∀ (fuel : Nat) (taskId reason : String) (now : Nat) (s : SchedulerState),
    (cancelTaskF cfg fuel taskId reason now s).taskDependencies =
      s.taskDependencies := by
  intro fuel
  induction fuel with
  | zero => intro _ _ _ _; rfl
  | succ fuel ih =>
    intro taskId reason now s
    unfold cancelTaskF
    split
    · rfl
    · dsimp only
      refine foldl_preserve
        (P := fun st => st.taskDependencies = s.taskDependencies)
        (fun st d hp => (ih d _ now st).trans hp) _ _ ?_
      rfl

theorem cancelTaskF_tasks_none (cfg : CoordinationConfig) :
    ∀ (fuel : Nat) (taskId reason : String) (now : Nat) (s : SchedulerState)
    (j : String), mapGet s.tasks j = none →
    mapGet (cancelTaskF cfg fuel taskId reason now s).tasks j = none := by
  intro fuel
  induction fuel with
  | zero => intro _ _ _ _ _ h; exact h
  | succ fuel ih =>
    intro taskId reason now s j hj
    unfold cancelTaskF
    split
    · exact hj
    · dsimp only
      refine foldl_preserve (P := fun st => mapGet st.tasks j = none)
        (fun st d hp => ih d _ now st j hp) _ _ ?_
      show mapGet (mapDelete s.tasks taskId) j = none
      by_cases h : j = taskId
      · subst h
        exact mapGet_mapDelete_self _ _
      · rw [mapGet_mapDelete_ne _ h]
        exact hj

theorem cancelTaskF_events_mono (cfg : CoordinationConfig) :
    ∀ (fuel : Nat) (taskId reason : String) (now : Nat) (s : SchedulerState)
    (e : Event), e ∈ s.events →
    e ∈ (cancelTaskF cfg fuel taskId reason now s).events := by
  intro fuel
  induction fuel with
  | zero => intro _ _ _ _ _ h; exact h
  | succ fuel ih =>
    intro taskId reason now s e he
    unfold cancelTaskF
    split
    · exact he
    · dsimp only
      refine foldl_preserve (P := fun st => e ∈ st.events)
        (fun st d hp => ih d _ now st e hp) _ _ ?_
      exact List.mem_append_left _ he

theorem cancelTaskF_archive_mono (cfg : CoordinationConfig) :
    ∀ (fuel : Nat) (taskId reason : String) (now : Nat) (s : SchedulerState)
    (p : String × ScheduledTask), p ∈ s.archive →
    p ∈ (cancelTaskF cfg fuel taskId reason now s).archive := by
  intro fuel
  induction fuel with
  | zero => intro _ _ _ _ _ h; exact h
  | succ fuel ih =>
    intro taskId reason now s p hp
    unfold cancelTaskF
    split
    · exact hp
    · dsimp only
      refine foldl_preserve (P := fun st => p ∈ st.archive)
        (fun st d hq => ih d _ now st p hq) _ _ ?_
      exact List.mem_append_left _ hp

theorem cancelTaskF_timers_sub (cfg : CoordinationConfig) :
    ∀ (fuel : Nat) (taskId reason : String) (now : Nat) (s : SchedulerState)
    (e : TimerEntry), e ∈ (cancelTaskF cfg fuel taskId reason now s).timers →
    e ∈ s.timers := by
  intro fuel
  induction fuel with
  | zero => intro _ _ _ _ _ h; exact h
  | succ fuel ih =>
    intro taskId reason now s e he
    unfold cancelTaskF at he
    split at he
    · exact he
    · dsimp only at he
      refine foldl_preserve
        (P := fun st => (∀ x : TimerEntry, x ∈ st.timers → x ∈ s.timers))
        (fun st d hp x hx => hp x (ih d _ now st x hx)) _ _
        (fun x hx => clearStoredTimeout_sub hx) e he

theorem cancelTaskF_agent_notMem (cfg : CoordinationConfig) :
    ∀ (fuel : Nat) (taskId reason : String) (now : Nat) (s : SchedulerState)
    (a x : String), x ∉ (mapGet s.agentTasks a).getD [] →
    x ∉ (mapGet (cancelTaskF cfg fuel taskId reason now s).agentTasks a).getD [] := by
  intro fuel
  induction fuel with
  | zero => intro _ _ _ _ _ _ h; exact h
  | succ fuel ih =>
    intro taskId reason now s a x hx
    unfold cancelTaskF
    split
    · exact hx
    · dsimp only
      refine foldl_preserve
        (P := fun st => x ∉ (mapGet st.agentTasks a).getD [])
        (fun st d hp => ih d _ now st a x hp) _ _ ?_
      exact agentSetDelete_notMem_preserved _ _ _ hx

/-! ### Concrete fixtures used by witnesses and counterexamples -/

/-- The configuration the spec uses in its examples. -/
def cfgD : CoordinationConfig :=
  { maxRetries := 3, retryDelay := 1000, resourceTimeout := 60000 }

/-- A configuration with `maxRetries = 1`: the first failure is terminal. -/
def cfgOne : CoordinationConfig :=
  { maxRetries := 1, retryDelay := 1000, resourceTimeout := 60000 }

def taskA : Task := { id := "A", dependencies := [], status := .pending }

def taskB : Task := { id := "B", dependencies := ["A"], status := .pending }

def taskC : Task := { id := "C", dependencies := ["B"], status := .pending }

/-! ### Shared helper lemmas about `assignTask` -/

/-- When some dependency is unmet, `assignTask` throws `TaskDependencyError`
with the filter of unmet dependency ids. -/
theorem assignTask_unmet_aux (cfg : CoordinationConfig) (t : Task)
    (agentId : String) (now : Nat) (s : SchedulerState) {d : String}
    (hd : d ∈ t.dependencies) (hnc : d ∉ s.completedTasks) :
    assignTask cfg t agentId now s =
      .error (.taskDependencyError t.id
        (t.dependencies.filter (fun x => decide (x ∉ s.completedTasks)))) := by
  have hlen : 0 < t.dependencies.length :=
    List.length_pos.mpr (List.ne_nil_of_mem hd)
  have hmem : d ∈ t.dependencies.filter (fun x => decide (x ∉ s.completedTasks)) :=
    List.mem_filter.mpr ⟨hd, by simpa using hnc⟩
  have hulen :
      0 < (t.dependencies.filter (fun x => decide (x ∉ s.completedTasks))).length :=
    List.length_pos.mpr (List.ne_nil_of_mem hmem)
  unfold assignTask
  rw [if_pos hlen]
  dsimp only
  rw [if_pos hulen]

/-- Registration of reverse edges in `assignTask` preserves membership of
the task id in any dependency's dependent set. -/
theorem edgeFold_mem_preserved (tid : String) :
    ∀ (ds : List String) (m : List (String × List String)) (d : String),
    tid ∈ (mapGet m d).getD [] →
    tid ∈ (mapGet (ds.foldl
      (fun mm x => mapSet mm x (setAdd ((mapGet mm x).getD []) tid)) m) d).getD [] := by
  intro ds
  induction ds with
  | nil => intro m d h; exact h
  | cons x rest ih =>
    intro m d h
    apply ih
    by_cases hx : d = x
    · subst hx
      rw [mapGet_mapSet_self]
      exact mem_setAdd.mpr (Or.inl h)
    · rw [mapGet_mapSet_ne _ hx]
      exact h

/-- After registering reverse edges for every dependency, each dependency's
dependent set contains the task id. -/
theorem edgeFold_mem (tid : String) :
    ∀ (ds : List String) (m : List (String × List String)) (d : String),
    d ∈ ds →
    tid ∈ (mapGet (ds.foldl
      (fun mm x => mapSet mm x (setAdd ((mapGet mm x).getD []) tid)) m) d).getD [] := by
  intro ds
  induction ds with
  | nil => intro m d h; simp at h
  | cons x rest ih =>
    intro m d hd
    rcases List.mem_cons.mp hd with rfl | hd'
    · rw [List.foldl_cons]
      apply edgeFold_mem_preserved
      rw [mapGet_mapSet_self]
      exact mem_setAdd.mpr (Or.inr rfl)
    · rw [List.foldl_cons]
      exact ih _ _ hd'

/-! ### Claim theorems -/

/-- C2: for every task `T` whose dependencies are all in the completed-id
set, `assignTask(T, agent)` succeeds and, in the resulting state, records a
`ScheduledTask` with `attempts = 0` under `T.id` whose status is already
`running` with `startedAt` stamped (the synchronous `startTask` call — no
intermediate queued phase), arms an execution-timeout timer whose handle is
stored on the record, emits `task started` with the task and agent ids, adds
`T.id` to the agent's task set, and registers a reverse edge
`dependency -> T.id` for each dependency. -/
theorem assignTask_met_success (cfg : CoordinationConfig) (t : Task)
    (agentId : String) (now : Nat) (s : SchedulerState)
    (hdeps : ∀ d ∈ t.dependencies, d ∈ s.completedTasks) :
    ∃ s', assignTask cfg t agentId now s = .ok s' ∧
      mapGet s'.tasks t.id = some
        { task := { t with
                    status := .running,
                    assignedAgent := some agentId,
                    startedAt := some now },
          agentId := agentId, attempts := 0, lastAttempt := none,
          timeout := some s.nextTimerId } ∧
      ({ id := s.nextTimerId, kind := .execTimeout, taskId := t.id,
         delay := cfg.resourceTimeout } : TimerEntry) ∈ s'.timers ∧
      Event.taskStarted t.id agentId ∈ s'.events ∧
      t.id ∈ (mapGet s'.agentTasks agentId).getD [] ∧
      ∀ d ∈ t.dependencies, t.id ∈ (mapGet s'.taskDependencies d).getD [] := by
  have hunmet : t.dependencies.filter (fun x => decide (x ∉ s.completedTasks)) = [] := by
    rw [List.filter_eq_nil_iff]
    intro x hx
    simpa using hdeps x hx
  have hok : assignTask cfg t agentId now s =
      .ok (registerTask cfg t agentId now s) := by
    unfold assignTask
    by_cases hl : 0 < t.dependencies.length
    · rw [if_pos hl]
      dsimp only
      rw [hunmet]
      simp
    · rw [if_neg hl]
  refine ⟨registerTask cfg t agentId now s, hok, ?_⟩
  unfold registerTask
  dsimp only
  unfold startTask
  rw [mapGet_mapSet_self]
  dsimp only
  refine ⟨?_, ?_, ?_, ?_, ?_⟩
  · rw [mapGet_mapSet_self]
  · exact List.mem_append_right _ (List.mem_singleton.mpr rfl)
  · exact List.mem_append_right _ (List.mem_singleton.mpr rfl)
  · rw [mapGet_mapSet_self]
    exact mem_setAdd.mpr (Or.inr rfl)
  · intro d hd
    exact edgeFold_mem t.id t.dependencies _ d hd

/-- Witness for C2: assigning the dependency-free task `A` on the empty
scheduler runs it synchronously. -/
theorem assignTask_met_success_witness :
    (∀ d ∈ taskA.dependencies, d ∈ SchedulerState.empty.completedTasks) ∧
    (∃ s', assignTask cfgD taskA "agent1" 5 SchedulerState.empty = .ok s' ∧
      mapGet s'.tasks taskA.id = some
        { task := { taskA with
                    status := .running,
                    assignedAgent := some "agent1",
                    startedAt := some 5 },
          agentId := "agent1", attempts := 0, lastAttempt := none,
          timeout := some SchedulerState.empty.nextTimerId } ∧
      ({ id := SchedulerState.empty.nextTimerId, kind := .execTimeout,
         taskId := taskA.id,
         delay := cfgD.resourceTimeout } : TimerEntry) ∈ s'.timers ∧
      Event.taskStarted taskA.id "agent1" ∈ s'.events ∧
      taskA.id ∈ (mapGet s'.agentTasks "agent1").getD [] ∧
      ∀ d ∈ taskA.dependencies, taskA.id ∈ (mapGet s'.taskDependencies d).getD []) :=
  ⟨by decide, assignTask_met_success cfgD taskA "agent1" 5 SchedulerState.empty
    (by decide)⟩

/-- C1: for every task `T` with a non-empty dependency list and every agent
id, if some id in `T.dependencies` is not in the completed-id set, then
`assignTask(T, agent)` fails with `TaskDependencyError` carrying the task id
and exactly the unmet dependency ids; the call returns the error without a
new state, so no index is touched. -/
theorem assignTask_unmet_fails (cfg : CoordinationConfig) (t : Task)
    (agentId : String) (now : Nat) (s : SchedulerState) (d : String)
    (hd : d ∈ t.dependencies) (hnc : d ∉ s.completedTasks) :
    assignTask cfg t agentId now s =
      .error (.taskDependencyError t.id
        (t.dependencies.filter (fun x => decide (x ∉ s.completedTasks)))) ∧
    ∀ x, x ∈ t.dependencies.filter (fun x => decide (x ∉ s.completedTasks)) ↔
      (x ∈ t.dependencies ∧ x ∉ s.completedTasks) := by
  refine ⟨assignTask_unmet_aux cfg t agentId now s hd hnc, fun x => ?_⟩
  simp [List.mem_filter]

/-- Witness for C1: assigning task `B` (which depends on the not-completed
`"A"`) on the empty scheduler fails with the dependency error listing
exactly `["A"]`. -/
theorem assignTask_unmet_fails_witness :
    "A" ∈ taskB.dependencies ∧ "A" ∉ SchedulerState.empty.completedTasks ∧
    assignTask cfgD taskB "agent1" 0 SchedulerState.empty =
      .error (.taskDependencyError "B" ["A"]) := by
  refine ⟨by decide, by decide, ?_⟩
  have h := (assignTask_unmet_fails cfgD taskB "agent1" 0 SchedulerState.empty
    "A" (by decide) (by decide)).1
  exact h.trans (by decide)

/-- C3: for every task id not present in the active-task index,
`completeTask` and `failTask` each fail with the not-found `TaskError`; the
call returns the error without a new state, so no index, timer or task
field is touched. -/
theorem completeTask_failTask_notFound (cfg : CoordinationConfig)
    (taskId : String) (result : Nat) (err : String) (now : Nat)
    (s : SchedulerState) (h : mapGet s.tasks taskId = none) :
    completeTask cfg taskId result now s =
      .error (.taskError ("Task not found: " ++ taskId)) ∧
    failTask cfg taskId err now s =
      .error (.taskError ("Task not found: " ++ taskId)) := by
  constructor
  · unfold completeTask
    rw [h]
  · unfold failTask
    rw [h]

/-- Witness for C3: on the empty scheduler, completing or failing the
unknown id `"Z"` yields the not-found error. -/
theorem completeTask_failTask_notFound_witness :
    mapGet SchedulerState.empty.tasks "Z" = none ∧
    (completeTask cfgD "Z" 0 0 SchedulerState.empty =
      .error (.taskError "Task not found: Z") ∧
     failTask cfgD "Z" "boom" 0 SchedulerState.empty =
      .error (.taskError "Task not found: Z")) :=
  ⟨rfl, completeTask_failTask_notFound cfgD "Z" 0 "boom" 0
    SchedulerState.empty rfl⟩

/-- C10: `getHealthStatus` reports `healthy = true` in every scheduler
state, and (whenever no active task carries the terminal `completed` status,
which holds in every state the operations produce) the reported `completed`
metric is the current size of the bounded completed-id set. -/
theorem getHealthStatus_always_healthy (s : SchedulerState) :
    (getHealthStatus s).healthy = true ∧
    (countActiveWithStatus s .completed = 0 →
      (getHealthStatus s).metrics.completed = s.completedTasks.length) := by
  refine ⟨rfl, fun h => ?_⟩
  simp [getHealthStatus, h]

/-- Witness for C10 at the empty scheduler state. -/
theorem getHealthStatus_always_healthy_witness :
    countActiveWithStatus SchedulerState.empty TaskStatus.completed = 0 ∧
    (getHealthStatus SchedulerState.empty).metrics.completed =
      SchedulerState.empty.completedTasks.length :=
  ⟨by decide, (getHealthStatus_always_healthy SchedulerState.empty).2 (by decide)⟩

theorem mapGet_mapDelete_none_preserved {α : Type} {m : List (String × α)}
    {j : String} (k : String) (h : mapGet m j = none) :
    mapGet (mapDelete m k) j = none := by
  by_cases hk : j = k
  · subst hk
    exact mapGet_mapDelete_self _ _
  · rw [mapGet_mapDelete_ne _ hk]
    exact h

theorem setDelete_cons_self (t : List String) (x : String) :
    setDelete (x :: t) x = setDelete t x := by
  simp [setDelete]

theorem setDelete_not_mem :
    ∀ (l : List String) (x : String), x ∉ l → setDelete l x = l := by
  intro l
  induction l with
  | nil => intro x _; rfl
  | cons y t ih =>
    intro x hx
    have hyx : y ≠ x := fun hh => hx (by rw [← hh]; exact List.mem_cons_self y t)
    simp only [setDelete]
    rw [if_neg hyx, ih x (fun hm => hx (List.mem_cons_of_mem _ hm))]

theorem evictStep_tasks (st : SchedulerState) (r : String) :
    (evictStep st r).tasks = st.tasks := by
  unfold evictStep
  split <;> rfl

theorem evictStep_completed_sub (st : SchedulerState) (r : String)
    {x : String} (hx : x ∈ (evictStep st r).completedTasks) :
    x ∈ st.completedTasks := by
  unfold evictStep at hx
  split at hx
  · exact (mem_setDelete.mp hx).1
  · exact hx

theorem evictStep_taskDependencies_none (st : SchedulerState) (r : String)
    {e : String} (he : mapGet st.taskDependencies e = none) :
    mapGet (evictStep st r).taskDependencies e = none := by
  unfold evictStep
  split
  · exact mapGet_mapDelete_none_preserved r he
  · exact he

/-- Walking the eviction loop over the surplus prefix `pre` (all of whose
ids are truthy) removes exactly `pre` from a duplicate-free completed set
`pre ++ rest`. -/
theorem evictFold_completedTasks :
    ∀ (pre : List String) (st : SchedulerState) (rest : List String),
    st.completedTasks = pre ++ rest → (pre ++ rest).Nodup →
    (∀ e ∈ pre, e ≠ "") →
    (pre.foldl evictStep st).completedTasks = rest := by
  intro pre
  induction pre with
  | nil =>
    intro st rest hc _ _
    simpa using hc
  | cons p ps ih =>
    intro st rest hc hnd hne
    rw [List.foldl_cons]
    have hpne : p ≠ "" := hne p (List.mem_cons_self p ps)
    have hnd1 := hnd
    rw [List.cons_append, List.nodup_cons] at hnd1
    have hstep : (evictStep st p).completedTasks = ps ++ rest := by
      unfold evictStep
      rw [if_pos hpne]
      dsimp only
      rw [hc, List.cons_append, setDelete_cons_self,
        setDelete_not_mem _ _ hnd1.1]
    exact ih (evictStep st p) rest hstep hnd1.2
      (fun e he => hne e (List.mem_cons_of_mem _ he))

/-- Each truthy id among the scanned surplus prefix loses its
reverse-dependency entry. -/
theorem evictFold_taskDependencies_none :
    ∀ (pre : List String) (st : SchedulerState) (e : String), e ∈ pre →
    e ≠ "" →
    mapGet ((pre.foldl evictStep st).taskDependencies) e = none := by
  intro pre
  induction pre with
  | nil => intro st e he _; simp at he
  | cons p ps ih =>
    intro st e he hene
    rw [List.foldl_cons]
    rcases List.mem_cons.mp he with rfl | he'
    · refine foldl_preserve
        (P := fun st' : SchedulerState => mapGet st'.taskDependencies e = none)
        (fun st' r hp => evictStep_taskDependencies_none st' r hp) ps
        (evictStep st e) ?_
      unfold evictStep
      rw [if_pos hene]
      dsimp only
      exact mapGet_mapDelete_self _ _
    · exact ih (evictStep st p) e he' hene

/-- 1001 distinct non-empty completed ids, in insertion order `"a"`,
`"aa"`, `"aaa"`, ... -/
def manyIds : List String :=
  (List.range 1001).map (fun n => String.mk (List.replicate (n + 1) 'a'))

theorem manyIds_nodup : manyIds.Nodup := by
  unfold manyIds
  refine List.Nodup.map ?_ (List.nodup_range 1001)
  intro m n hmn
  have hdata : List.replicate (m + 1) 'a' = List.replicate (n + 1) 'a' :=
    congrArg String.data hmn
  have hlen := congrArg List.length hdata
  simp only [List.length_replicate] at hlen
  omega

/-- A scheduler state whose completed-id set exceeds the 1000 cap and whose
oldest id `"a"` still owns a reverse-dependency entry. -/
def overfullState : SchedulerState :=
  { SchedulerState.empty with
    completedTasks := manyIds,
    taskDependencies := [("a", ["X"])] }

/-- The completed set of `overfullState` preceded by the falsy id `""`,
which also owns a reverse-dependency entry. -/
def falsyState : SchedulerState :=
  { SchedulerState.empty with
    completedTasks := "" :: manyIds,
    taskDependencies := [("", ["X"])] }

set_option maxRecDepth 100000 in
/-- Counterexample to C8 as stated: with the empty-string id among the
oldest surplus, the loop guard `if (!result.done && result.value)` skips
its eviction because `""` is falsy: after `cleanup` the completed set still
holds 1001 entries — above the 1000 cap — with `""` still present, and
`""`'s reverse-dependency entry survives. -/
theorem cleanup_falsy_counterexample :
    1000 < falsyState.completedTasks.length ∧
    (cleanup falsyState).completedTasks.length = 1001 ∧
    "" ∈ (cleanup falsyState).completedTasks ∧
    mapGet (cleanup falsyState).taskDependencies "" = some ["X"] := by
  decide

set_option maxRecDepth 8192 in
/-- C8 (amended): when the completed-id set (duplicate-free, as every JS
`Set` is) holds more than 1000 ids and no id in the oldest surplus is the
falsy empty string, `cleanup()` evicts exactly the oldest surplus ids
(insertion order), capping the set at 1000, and deletes each evicted id's
reverse-dependency entry; an id no longer in the completed set is treated
as an unsatisfied dependency both by the dependent-start check and by
`assignTask`, which fails with the dependency error listing it. An
empty-string id is skipped by the loop's truthiness guard and is never
evicted (see the counterexample). -/
theorem cleanup_caps_completed (s : SchedulerState)
    (h : 1000 < s.completedTasks.length)
    (hnd : s.completedTasks.Nodup)
    (hne : ∀ e ∈ s.completedTasks.take (s.completedTasks.length - 1000),
      e ≠ "") :
    (cleanup s).completedTasks =
      s.completedTasks.drop (s.completedTasks.length - 1000) ∧
    (cleanup s).completedTasks.length = 1000 ∧
    (∀ e ∈ s.completedTasks.take (s.completedTasks.length - 1000),
      mapGet (cleanup s).taskDependencies e = none) ∧
    (∀ e ∈ s.completedTasks.take (s.completedTasks.length - 1000),
      e ∉ (cleanup s).completedTasks) ∧
    (∀ (cfg : CoordinationConfig) (t : Task) (agentId : String) (now : Nat)
      (e : String), e ∈ t.dependencies → e ∉ (cleanup s).completedTasks →
      canStartTask (cleanup s) t = false ∧
      assignTask cfg t agentId now (cleanup s) =
        .error (.taskDependencyError t.id
          (t.dependencies.filter
            (fun x => decide (x ∉ (cleanup s).completedTasks))))) := by
  have hcl : cleanup s =
      (s.completedTasks.take (s.completedTasks.length - 1000)).foldl
        evictStep s := by
    unfold cleanup
    rw [if_pos h]
  have hcompl : (cleanup s).completedTasks =
      s.completedTasks.drop (s.completedTasks.length - 1000) := by
    rw [hcl]
    exact evictFold_completedTasks _ s _
      (List.take_append_drop _ _).symm
      (by rw [List.take_append_drop]; exact hnd) hne
  refine ⟨hcompl, ?_, ?_, ?_, ?_⟩
  · rw [hcompl, List.length_drop]
    omega
  · intro e he
    rw [hcl]
    exact evictFold_taskDependencies_none _ s e he (hne e he)
  · intro e he
    rw [hcompl]
    have hnd2 := hnd
    rw [← List.take_append_drop (s.completedTasks.length - 1000)
      s.completedTasks] at hnd2
    exact List.disjoint_of_nodup_append hnd2 he
  · intro cfg t agentId now e he hnc
    constructor
    · apply Bool.eq_false_iff.mpr
      intro hall
      rw [canStartTask, List.all_eq_true] at hall
      have := hall e he
      simp at this
      exact hnc this
    · exact assignTask_unmet_aux cfg t agentId now _ he hnc

set_option maxRecDepth 100000 in
/-- Witness for C8 (amended): on a 1001-id completed set of distinct
non-empty ids, cleanup evicts the oldest id `"a"`, caps the set at 1000 and
drops the evicted id's reverse edges. -/
theorem cleanup_caps_completed_witness :
    1000 < overfullState.completedTasks.length ∧
    overfullState.completedTasks.Nodup ∧
    (∀ e ∈ overfullState.completedTasks.take
      (overfullState.completedTasks.length - 1000), e ≠ "") ∧
    ((cleanup overfullState).completedTasks.length = 1000 ∧
     mapGet (cleanup overfullState).taskDependencies "a" = none) :=
  ⟨by decide, manyIds_nodup, by decide,
   (cleanup_caps_completed overfullState (by decide) manyIds_nodup
     (by decide)).2.1,
   (cleanup_caps_completed overfullState (by decide) manyIds_nodup
     (by decide)).2.2.1 "a" (by decide)⟩

/-- Task `B` depending directly on `A` (for cascade scenarios). -/
def taskBA : Task := { id := "B", dependencies := ["A"], status := .pending }

/-- Task `C` depending directly on `A` (for cascade scenarios). -/
def taskCA : Task := { id := "C", dependencies := ["A"], status := .pending }

def schedA : ScheduledTask :=
  { task := { taskA with
              status := .running,
              assignedAgent := some "ag",
              startedAt := some 1 },
    agentId := "ag", attempts := 0, timeout := some 0 }

def schedB : ScheduledTask :=
  { task := { taskBA with
              status := .running,
              assignedAgent := some "ag",
              startedAt := some 2 },
    agentId := "ag", attempts := 0, timeout := some 1 }

def schedC : ScheduledTask :=
  { task := { taskCA with
              status := .running,
              assignedAgent := some "ag",
              startedAt := some 3 },
    agentId := "ag", attempts := 0, timeout := some 2 }

/-- `A` active with active dependents `B` and `C`; the dependent list also
holds the inactive id `"X"` between them. -/
def abcState : SchedulerState :=
  { tasks := [("A", schedA), ("B", schedB), ("C", schedC)],
    agentTasks := [("ag", ["A", "B", "C"])],
    taskDependencies := [("A", ["B", "X", "C"])],
    completedTasks := [],
    timers := [{ id := 0, kind := .execTimeout, taskId := "A", delay := 60000 },
               { id := 1, kind := .execTimeout, taskId := "B", delay := 60000 },
               { id := 2, kind := .execTimeout, taskId := "C", delay := 60000 }],
    nextTimerId := 3, events := [], archive := [] }

/-- C7: `cancelTask` on an inactive id is a no-op returning the state
unchanged; on an active id it emits `task cancelled` with the verbatim
reason, archives the task with status `cancelled` and `completedAt` set,
removes it from the active and agent indices, cancels its armed timer, and
recursively cancels the registered dependents with reason
`"Parent task cancelled"`, continuing past inactive descendants: cancelling
`A` with active dependents `B` and `C` (and an inactive id between them in
the dependent list) cancels all three, `A` with the caller's reason and `B`
and `C` with `"Parent task cancelled"`. -/
theorem cancelTask_cancels (cfg : CoordinationConfig) (taskId reason : String)
    (now : Nat) (s : SchedulerState) :
    (mapGet s.tasks taskId = none → cancelTask cfg taskId reason now s = s) ∧
    (∀ sched, mapGet s.tasks taskId = some sched →
      Event.taskCancelled taskId reason ∈
        (cancelTask cfg taskId reason now s).events ∧
      (taskId, { sched with
                 task := { sched.task with
                           status := .cancelled,
                           completedAt := some now } }) ∈
        (cancelTask cfg taskId reason now s).archive ∧
      mapGet (cancelTask cfg taskId reason now s).tasks taskId = none ∧
      taskId ∉
        (mapGet (cancelTask cfg taskId reason now s).agentTasks
          sched.agentId).getD [] ∧
      ∀ tid, sched.timeout = some tid →
        ∀ e ∈ (cancelTask cfg taskId reason now s).timers, e.id ≠ tid) ∧
    ((cancelTask cfgD "A" "stop" 9 abcState).events =
      [Event.taskCancelled "A" "stop",
       Event.taskCancelled "B" "Parent task cancelled",
       Event.taskCancelled "C" "Parent task cancelled"] ∧
     (cancelTask cfgD "A" "stop" 9 abcState).archive.map
        (fun p => (p.1, p.2.task.status)) =
      [("A", .cancelled), ("B", .cancelled), ("C", .cancelled)] ∧
     (cancelTask cfgD "A" "stop" 9 abcState).tasks = []) := by
  refine ⟨?_, ?_, by decide⟩
  · intro h
    unfold cancelTask cancelTaskF
    rw [h]
  · intro sched hsched
    unfold cancelTask cancelTaskF
    rw [hsched]
    dsimp only
    refine ⟨?_, ?_, ?_, ?_, ?_⟩
    · refine foldl_preserve
        (P := fun st => Event.taskCancelled taskId reason ∈ st.events)
        (fun st d hp => cancelTaskF_events_mono cfg _ d _ now st _ hp) _ _ ?_
      exact List.mem_append_right _ (List.mem_singleton.mpr rfl)
    · refine foldl_preserve
        (P := fun st => (taskId, { sched with
          task := { sched.task with
                    status := .cancelled,
                    completedAt := some now } }) ∈ st.archive)
        (fun st d hp => cancelTaskF_archive_mono cfg _ d _ now st _ hp) _ _ ?_
      exact List.mem_append_right _ (List.mem_singleton.mpr rfl)
    · refine foldl_preserve
        (P := fun st => mapGet st.tasks taskId = none)
        (fun st d hp => cancelTaskF_tasks_none cfg _ d _ now st taskId hp) _ _ ?_
      exact mapGet_mapDelete_self _ _
    · refine foldl_preserve
        (P := fun st => taskId ∉ (mapGet st.agentTasks sched.agentId).getD [])
        (fun st d hp =>
          cancelTaskF_agent_notMem cfg _ d _ now st sched.agentId taskId hp) _ _ ?_
      exact agentSetDelete_self_notMem _ _ _
    · intro tid htid
      rw [htid]
      have hstep : ∀ (st : SchedulerState) (d : String),
          (∀ e ∈ st.timers, e.id ≠ tid) →
          ∀ e ∈ (cancelTaskF cfg s.tasks.length d "Parent task cancelled"
            now st).timers, e.id ≠ tid := by
        intro st d hp e he
        exact hp e (cancelTaskF_timers_sub cfg _ d _ now st e he)
      refine foldl_preserve
        (P := fun st : SchedulerState => ∀ e ∈ st.timers, e.id ≠ tid)
        hstep _ _ ?_
      intro e he
      exact (mem_clearStoredTimeout_some.mp he).2

/-- Witness for C7 at the concrete state with `A` active. -/
theorem cancelTask_cancels_witness :
    mapGet abcState.tasks "A" = some schedA ∧
    Event.taskCancelled "A" "halt" ∈
      (cancelTask cfgD "A" "halt" 9 abcState).events :=
  ⟨by decide,
   ((cancelTask_cancels cfgD "A" "halt" 9 abcState).2.1 schedA (by decide)).1⟩

/-! ### Tracking a single dependent through the dependent-scan fold -/

/-- The update `startTask` applies to a stored `ScheduledTask`: status
`running`, `startedAt` stamped, and the fresh timer handle stored. -/
def runSched (now : Nat) (sched : ScheduledTask) (tid : Nat) : ScheduledTask :=
  { sched with
    task := { sched.task with status := .running, startedAt := some now },
    timeout := some tid }

/-- Invariant for the dependent-scan fold of `completeTask`, tracking the
dependent `B`: the completed set stays `C`, and `B`'s entry is either still
its original `schedB` or (when its dependencies are all in `C`) the started
version with a `task started` event emitted. -/
def depInv (now : Nat) (B : String) (schedB : ScheduledTask) (C : List String)
    (st : SchedulerState) : Prop :=
  st.completedTasks = C ∧
  (mapGet st.tasks B = some schedB ∨
    (schedB.task.dependencies.all (fun x => decide (x ∈ C)) = true ∧
     ∃ tid, mapGet st.tasks B = some (runSched now schedB tid) ∧
       Event.taskStarted B schedB.agentId ∈ st.events))

/-- The started-outcome for the tracked dependent `B`. -/
def depStartedQ (now : Nat) (B : String) (schedB : ScheduledTask)
    (C : List String) (st : SchedulerState) : Prop :=
  st.completedTasks = C ∧
  ∃ tid, mapGet st.tasks B = some (runSched now schedB tid) ∧
    Event.taskStarted B schedB.agentId ∈ st.events

theorem dependentStep_tasks_none (cfg : CoordinationConfig) (now : Nat)
    (st : SchedulerState) (d : String) {j : String}
    (hj : mapGet st.tasks j = none) :
    mapGet (dependentStep cfg now st d).tasks j = none := by
  by_cases hd : j = d
  · subst hd
    unfold dependentStep
    rw [hj]
    exact hj
  · rw [dependentStep_tasks_ne cfg now st d hd]
    exact hj

theorem dependentStep_preserves_depInv (cfg : CoordinationConfig) (now : Nat)
    (B : String) (schedB : ScheduledTask) (C : List String)
    (st : SchedulerState) (d : String) (h : depInv now B schedB C st) :
    depInv now B schedB C (dependentStep cfg now st d) := by
  obtain ⟨hC, hdisj⟩ := h
  by_cases hd : d = B
  case neg =>
    refine ⟨(dependentStep_completedTasks cfg now st d).trans hC, ?_⟩
    rcases hdisj with hB | ⟨hmet, tid, hB, hev⟩
    · exact Or.inl
        ((dependentStep_tasks_ne cfg now st d (fun hh => hd hh.symm)).trans hB)
    · exact Or.inr ⟨hmet, tid,
        ((dependentStep_tasks_ne cfg now st d (fun hh => hd hh.symm)).trans hB),
        dependentStep_events_mono cfg now st d hev⟩
  case pos =>
    subst hd
    rcases hdisj with hB | ⟨hmet, tid, hB, hev⟩
    · unfold dependentStep
      rw [hB]
      dsimp only
      by_cases hc : canStartTask st schedB.task = true
      · rw [if_pos hc]
        unfold startTask
        rw [hB]
        dsimp only
        refine ⟨hC, Or.inr ⟨?_, st.nextTimerId, ?_, ?_⟩⟩
        · unfold canStartTask at hc
          rw [hC] at hc
          exact hc
        · exact (mapGet_mapSet_self _ _ _).trans rfl
        · exact List.mem_append_right _ (List.mem_singleton.mpr rfl)
      · rw [if_neg hc]
        exact ⟨hC, Or.inl hB⟩
    · unfold dependentStep
      rw [hB]
      dsimp only
      have hcond : canStartTask st (runSched now schedB tid).task = true := by
        show schedB.task.dependencies.all
          (fun x => decide (x ∈ st.completedTasks)) = true
        rw [hC]
        exact hmet
      rw [if_pos hcond]
      unfold startTask
      rw [hB]
      dsimp only
      refine ⟨hC, Or.inr ⟨hmet, st.nextTimerId, ?_, ?_⟩⟩
      · exact (mapGet_mapSet_self _ _ _).trans rfl
      · exact List.mem_append_left _ hev

theorem dependentStep_preserves_depStartedQ (cfg : CoordinationConfig)
    (now : Nat) (B : String) (schedB : ScheduledTask) (C : List String)
    (st : SchedulerState) (d : String)
    (h : depStartedQ now B schedB C st) :
    depStartedQ now B schedB C (dependentStep cfg now st d) := by
  obtain ⟨hC, tid, hB, hev⟩ := h
  by_cases hd : d = B
  case neg =>
    exact ⟨(dependentStep_completedTasks cfg now st d).trans hC, tid,
      ((dependentStep_tasks_ne cfg now st d (fun hh => hd hh.symm)).trans hB),
      dependentStep_events_mono cfg now st d hev⟩
  case pos =>
    subst hd
    unfold dependentStep
    rw [hB]
    dsimp only
    by_cases hc : canStartTask st (runSched now schedB tid).task = true
    · rw [if_pos hc]
      unfold startTask
      rw [hB]
      dsimp only
      exact ⟨hC, st.nextTimerId, (mapGet_mapSet_self _ _ _).trans rfl,
        List.mem_append_left _ hev⟩
    · rw [if_neg hc]
      exact ⟨hC, tid, hB, hev⟩

theorem dependentStep_establishes_depStartedQ (cfg : CoordinationConfig)
    (now : Nat) (B : String) (schedB : ScheduledTask) (C : List String)
    (st : SchedulerState)
    (hmet : schedB.task.dependencies.all (fun x => decide (x ∈ C)) = true)
    (h : depInv now B schedB C st) :
    depStartedQ now B schedB C (dependentStep cfg now st B) := by
  obtain ⟨hC, hdisj⟩ := h
  rcases hdisj with hB | ⟨_, tid, hB, hev⟩
  · have hc : canStartTask st schedB.task = true := by
      unfold canStartTask
      rw [hC]
      exact hmet
    unfold dependentStep
    rw [hB]
    dsimp only
    rw [if_pos hc]
    unfold startTask
    rw [hB]
    dsimp only
    exact ⟨hC, st.nextTimerId, (mapGet_mapSet_self _ _ _).trans rfl,
      List.mem_append_right _ (List.mem_singleton.mpr rfl)⟩
  · have hcond : canStartTask st (runSched now schedB tid).task = true := by
      show schedB.task.dependencies.all
        (fun x => decide (x ∈ st.completedTasks)) = true
      rw [hC]
      exact hmet
    unfold dependentStep
    rw [hB]
    dsimp only
    rw [if_pos hcond]
    unfold startTask
    rw [hB]
    dsimp only
    exact ⟨hC, st.nextTimerId, (mapGet_mapSet_self _ _ _).trans rfl,
      List.mem_append_left _ hev⟩

theorem dependentStep_archive_mono (cfg : CoordinationConfig) (now : Nat)
    (st : SchedulerState) (d : String) {p : String × ScheduledTask}
    (hp : p ∈ st.archive) : p ∈ (dependentStep cfg now st d).archive := by
  rw [dependentStep_archive]
  exact hp

theorem depFold_inv (cfg : CoordinationConfig) (now : Nat) (B : String)
    (schedB : ScheduledTask) (C : List String) :
    ∀ (l : List String) (st : SchedulerState), depInv now B schedB C st →
    depInv now B schedB C (l.foldl (dependentStep cfg now) st) :=
  foldl_preserve
    (fun st d h => dependentStep_preserves_depInv cfg now B schedB C st d h)

theorem depFold_startedQ (cfg : CoordinationConfig) (now : Nat) (B : String)
    (schedB : ScheduledTask) (C : List String) :
    ∀ (l : List String) (st : SchedulerState), depStartedQ now B schedB C st →
    depStartedQ now B schedB C (l.foldl (dependentStep cfg now) st) :=
  foldl_preserve
    (fun st d h => dependentStep_preserves_depStartedQ cfg now B schedB C st d h)

theorem depFold_started (cfg : CoordinationConfig) (now : Nat) (B : String)
    (schedB : ScheduledTask) (C : List String)
    (hmet : schedB.task.dependencies.all (fun x => decide (x ∈ C)) = true) :
    ∀ (l : List String) (st : SchedulerState), B ∈ l →
    depInv now B schedB C st →
    depStartedQ now B schedB C (l.foldl (dependentStep cfg now) st) := by
  intro l
  induction l with
  | nil => intro st hB; simp at hB
  | cons d rest ih =>
    intro st hBl hinv
    rw [List.foldl_cons]
    by_cases hd : d = B
    · subst hd
      exact depFold_startedQ cfg now d schedB C rest _
        (dependentStep_establishes_depStartedQ cfg now d schedB C st hmet hinv)
    · rcases List.mem_cons.mp hBl with rfl | hB'
      · exact absurd rfl hd
      · exact ih _ hB'
          (dependentStep_preserves_depInv cfg now B schedB C st d hinv)

/-- C4: completing an active task archives it with status `completed`,
`output` and `completedAt` set, cancels its armed timer, removes it from the
active and agent indices, adds its id to the completed-id set, and — for
each dependent `B` registered under the completed id that is still active —
starts `B` within the same call exactly when every id in `B`'s dependency
list is in the updated completed-id set (`B` reaches `running` with a
`task started` event), leaving `B` untouched otherwise. -/
theorem completeTask_success (cfg : CoordinationConfig) (taskId : String)
    (result : Nat) (now : Nat) (s : SchedulerState) (sched : ScheduledTask)
    (s' : SchedulerState)
    (hsched : mapGet s.tasks taskId = some sched)
    (h : completeTask cfg taskId result now s = .ok s') :
    (taskId, { sched with
               task := { sched.task with
                         status := .completed,
                         output := some result,
                         completedAt := some now } }) ∈ s'.archive ∧
    (∀ tid, sched.timeout = some tid → tid < s.nextTimerId →
      ∀ e ∈ s'.timers, e.id ≠ tid) ∧
    mapGet s'.tasks taskId = none ∧
    taskId ∉ (mapGet s'.agentTasks sched.agentId).getD [] ∧
    taskId ∈ s'.completedTasks ∧
    (∀ B schedB, B ≠ taskId → mapGet s.tasks B = some schedB →
      (schedB.task.dependencies.all
          (fun x => decide (x ∈ setAdd s.completedTasks taskId)) = true →
        B ∈ (mapGet s.taskDependencies taskId).getD [] →
        ∃ tid, mapGet s'.tasks B = some (runSched now schedB tid) ∧
          Event.taskStarted B schedB.agentId ∈ s'.events) ∧
      (schedB.task.dependencies.all
          (fun x => decide (x ∈ setAdd s.completedTasks taskId)) = false →
        mapGet s'.tasks B = some schedB)) := by
  unfold completeTask at h
  rw [hsched] at h
  dsimp only at h
  injection h with h
  subst h
  refine ⟨?_, ?_, ?_, ?_, ?_, ?_⟩
  · exact foldl_preserve
      (fun st d hp => dependentStep_archive_mono cfg now st d hp) _ _
      (List.mem_append_right _ (List.mem_singleton.mpr rfl))
  · intro tid htid hfresh
    rw [htid]
    have hstep : ∀ (st : SchedulerState) (d : String),
        ((∀ e ∈ st.timers, e.id ≠ tid) ∧ tid < st.nextTimerId) →
        ((∀ e ∈ (dependentStep cfg now st d).timers, e.id ≠ tid) ∧
          tid < (dependentStep cfg now st d).nextTimerId) := by
      intro st d hp
      refine ⟨fun e he => ?_, Nat.lt_of_lt_of_le hp.2
        (dependentStep_nextTimerId cfg now st d)⟩
      rcases dependentStep_timers_new cfg now st d he with h1 | h1
      · exact hp.1 e h1
      · rw [h1]
        exact Nat.ne_of_gt hp.2
    refine (foldl_preserve
      (P := fun st : SchedulerState =>
        (∀ e ∈ st.timers, e.id ≠ tid) ∧ tid < st.nextTimerId)
      hstep _ _ ?_).1
    exact ⟨fun e he => (mem_clearStoredTimeout_some.mp he).2, hfresh⟩
  · exact foldl_preserve
      (fun st d hp => dependentStep_tasks_none cfg now st d hp) _ _
      (mapGet_mapDelete_self _ _)
  · refine foldl_preserve
      (P := fun st : SchedulerState =>
        taskId ∉ (mapGet st.agentTasks sched.agentId).getD [])
      (fun st d hp => ?_) _ _ ?_
    · show taskId ∉
        (mapGet (dependentStep cfg now st d).agentTasks sched.agentId).getD []
      rw [dependentStep_agentTasks]
      exact hp
    · exact agentSetDelete_self_notMem _ _ _
  · refine foldl_preserve
      (P := fun st : SchedulerState => taskId ∈ st.completedTasks)
      (fun st d hp => ?_) _ _ ?_
    · show taskId ∈ (dependentStep cfg now st d).completedTasks
      rw [dependentStep_completedTasks]
      exact hp
    · exact mem_setAdd.mpr (Or.inr rfl)
  · intro B schedB hne hB
    have hinv : depInv now B schedB (setAdd s.completedTasks taskId)
        { s with
          timers := clearStoredTimeout s.timers sched.timeout,
          tasks := mapDelete s.tasks taskId,
          agentTasks := agentSetDelete s.agentTasks sched.agentId taskId,
          completedTasks := setAdd s.completedTasks taskId,
          archive := s.archive ++ [(taskId, { sched with
            task := { sched.task with
                      status := .completed,
                      output := some result,
                      completedAt := some now } })] } := by
      refine ⟨rfl, Or.inl ?_⟩
      show mapGet (mapDelete s.tasks taskId) B = some schedB
      rw [mapGet_mapDelete_ne _ hne]
      exact hB
    constructor
    · intro hmet hBdeps
      have hq := depFold_started cfg now B schedB _ hmet
        ((mapGet s.taskDependencies taskId).getD []) _ hBdeps hinv
      exact hq.2
    · intro hfalse
      have hp := depFold_inv cfg now B schedB _
        ((mapGet s.taskDependencies taskId).getD []) _ hinv
      rcases hp.2 with h1 | ⟨hmet', _⟩
      · exact h1
      · rw [hfalse] at hmet'
        exact Bool.noConfusion hmet'

/-- The state after completing `A` in `abcState`. -/
def afterCompleteA : SchedulerState :=
  ((completeTask cfgD "A" 7 9 abcState).toOption).getD SchedulerState.empty

/-- Witness for C4: completing the active `A` (with dependents `B`, `C`)
archives it as completed. -/
theorem completeTask_success_witness :
    mapGet abcState.tasks "A" = some schedA ∧
    completeTask cfgD "A" 7 9 abcState = .ok afterCompleteA ∧
    ("A", { schedA with
            task := { schedA.task with
                      status := .completed,
                      output := some 7,
                      completedAt := some 9 } }) ∈ afterCompleteA.archive :=
  ⟨by decide, by decide,
   (completeTask_success cfgD "A" 7 9 abcState schedA afterCompleteA
     (by decide) (by decide)).1⟩

/-- `C` scheduled as depending on `B` (a two-level chain under `A`). -/
def schedCB : ScheduledTask :=
  { task := { taskC with
              status := .running,
              assignedAgent := some "ag",
              startedAt := some 3 },
    agentId := "ag", attempts := 0, timeout := some 2 }

/-- Chain `A <- B <- C`: `B` depends on `A`, `C` depends on `B`, all three
active, with the matching reverse-dependency edges. -/
def chainState : SchedulerState :=
  { tasks := [("A", schedA), ("B", schedB), ("C", schedCB)],
    agentTasks := [("ag", ["A", "B", "C"])],
    taskDependencies := [("A", ["B"]), ("B", ["C"])],
    completedTasks := [],
    timers := [{ id := 0, kind := .execTimeout, taskId := "A", delay := 60000 },
               { id := 1, kind := .execTimeout, taskId := "B", delay := 60000 },
               { id := 2, kind := .execTimeout, taskId := "C", delay := 60000 }],
    nextTimerId := 3, events := [], archive := [] }

/-- The state after `A` fails terminally (`maxRetries = 1`) in `chainState`. -/
def chainAfterFail : SchedulerState :=
  ((failTask cfgOne "A" "boom" 9 chainState).toOption).getD SchedulerState.empty

/-- Counterexample to C5 as stated: when `A` fails terminally with dependent
`B` and transitive dependent `C`, the cascade cancels `C` with reason
`"Parent task cancelled"`, not `"Parent task failed"` — only the direct
dependent `B` receives `"Parent task failed"`. -/
theorem failTask_cascade_reason_counterexample :
    failTask cfgOne "A" "boom" 9 chainState = .ok chainAfterFail ∧
    Event.taskCancelled "B" "Parent task failed" ∈ chainAfterFail.events ∧
    Event.taskCancelled "C" "Parent task cancelled" ∈ chainAfterFail.events ∧
    Event.taskCancelled "C" "Parent task failed" ∉ chainAfterFail.events := by
  decide

/-- The state of `abcState` with only task `A` and its retry bookkeeping,
after one failure under the default configuration. -/
def retryState1 : SchedulerState :=
  ((failTask cfgD "A" "boom" 10 abcState).toOption).getD SchedulerState.empty

/-- After the first retry timer fires (`startTask`) and `A` fails again. -/
def retryState2 : SchedulerState :=
  ((failTask cfgD "A" "boom" 12
    (startTask cfgD "A" 11 retryState1)).toOption).getD SchedulerState.empty

/-- After the second retry fires and `A` fails a third time (terminal). -/
def retryState3 : SchedulerState :=
  ((failTask cfgD "A" "boom" 14
    (startTask cfgD "A" 13 retryState2)).toOption).getD SchedulerState.empty

/-- C5 (amended): failing an active task increments `attempts` and records
`lastAttempt`; while the incremented count is below `maxRetries` the task
stays registered in the active and agent indices with only its timer,
attempt counter and `lastAttempt` mutated, and a retry timer with delay
`retryDelay * 2^(attempts - 1)` re-invoking `startTask` is armed; otherwise
the task is archived as `failed` with `completedAt` and the error, removed
from the active and agent indices, never added to the completed-id set, and
its dependents are cascade-cancelled — the direct dependents with reason
`"Parent task failed"`, deeper transitive dependents with
`"Parent task cancelled"` (chain conjunct below). With `maxRetries = 3` and
`retryDelay = 1000`, repeated failure yields retries after 1000 ms then
2000 ms and terminal failure on the third — 3 execution attempts, 2
retries. -/
theorem failTask_retry_policy (cfg : CoordinationConfig) (taskId : String)
    (err : String) (now : Nat) (s : SchedulerState) (sched : ScheduledTask)
    (hsched : mapGet s.tasks taskId = some sched) :
    (sched.attempts + 1 < cfg.maxRetries →
      ∃ s', failTask cfg taskId err now s = .ok s' ∧
        mapGet s'.tasks taskId = some { sched with
          attempts := sched.attempts + 1, lastAttempt := some now } ∧
        ({ id := s.nextTimerId, kind := .retry, taskId := taskId,
           delay := cfg.retryDelay * 2 ^ sched.attempts } : TimerEntry)
          ∈ s'.timers ∧
        s'.agentTasks = s.agentTasks ∧
        s'.completedTasks = s.completedTasks ∧
        s'.archive = s.archive ∧
        (∀ tid, sched.timeout = some tid → tid ≠ s.nextTimerId →
          ∀ e ∈ s'.timers, e.id ≠ tid)) ∧
    (¬ sched.attempts + 1 < cfg.maxRetries →
      ∃ s', failTask cfg taskId err now s = .ok s' ∧
        (taskId, { sched with
                   attempts := sched.attempts + 1, lastAttempt := some now,
                   task := { sched.task with
                             status := .failed, error := some err,
                             completedAt := some now } }) ∈ s'.archive ∧
        mapGet s'.tasks taskId = none ∧
        taskId ∉ (mapGet s'.agentTasks sched.agentId).getD [] ∧
        s'.completedTasks = s.completedTasks) ∧
    (Event.taskCancelled "B" "Parent task failed" ∈ chainAfterFail.events ∧
     Event.taskCancelled "C" "Parent task cancelled" ∈ chainAfterFail.events) ∧
    (({ id := 3, kind := .retry, taskId := "A", delay := 1000 } : TimerEntry)
        ∈ retryState1.timers ∧
     (mapGet retryState1.tasks "A").isSome = true ∧
     ({ id := 5, kind := .retry, taskId := "A", delay := 2000 } : TimerEntry)
        ∈ retryState2.timers ∧
     (mapGet retryState2.tasks "A").isSome = true ∧
     mapGet retryState3.tasks "A" = none ∧
     ("A", { schedA with
             attempts := 3, lastAttempt := some 14,
             timeout := some 6,
             task := { schedA.task with
                       status := .failed, error := some "boom",
                       startedAt := some 13,
                       completedAt := some 14 } }) ∈ retryState3.archive) := by
  refine ⟨?_, ?_, by decide, by decide⟩
  · intro hlt
    unfold failTask
    rw [hsched]
    dsimp only
    rw [if_pos hlt]
    refine ⟨_, rfl, ?_, ?_, rfl, rfl, rfl, ?_⟩
    · exact (mapGet_mapSet_self _ _ _).trans rfl
    · exact List.mem_append_right _ (List.mem_singleton.mpr rfl)
    · intro tid htid hne e he
      rw [htid] at he
      rcases List.mem_append.mp he with h1 | h1
      · exact (mem_clearStoredTimeout_some.mp h1).2
      · rw [List.mem_singleton.mp h1]
        exact fun hh => hne hh.symm
  · intro hge
    unfold failTask
    rw [hsched]
    dsimp only
    rw [if_neg hge]
    refine ⟨_, rfl, ?_, ?_, ?_, ?_⟩
    · unfold cancelDependentTasks
      refine foldl_preserve
        (P := fun st : SchedulerState => _ ∈ st.archive)
        (fun st d hp => cancelTaskF_archive_mono cfg _ d _ now st _ hp) _ _ ?_
      exact List.mem_append_right _ (List.mem_singleton.mpr rfl)
    · unfold cancelDependentTasks
      refine foldl_preserve
        (P := fun st : SchedulerState => mapGet st.tasks taskId = none)
        (fun st d hp => cancelTaskF_tasks_none cfg _ d _ now st taskId hp) _ _ ?_
      exact mapGet_mapDelete_self _ _
    · unfold cancelDependentTasks
      refine foldl_preserve
        (P := fun st : SchedulerState =>
          taskId ∉ (mapGet st.agentTasks sched.agentId).getD [])
        (fun st d hp =>
          cancelTaskF_agent_notMem cfg _ d _ now st sched.agentId taskId hp)
        _ _ ?_
      exact agentSetDelete_self_notMem _ _ _
    · unfold cancelDependentTasks
      refine foldl_preserve
        (P := fun st : SchedulerState => st.completedTasks = s.completedTasks)
        (fun st d hp => (cancelTaskF_completedTasks cfg _ d _ now st).trans hp)
        _ _ ?_
      rfl

/-- Witness for C5 (amended): `A` in `abcState` (attempts 0, `maxRetries`
3) is retried with delay 1000 on first failure. -/
theorem failTask_retry_policy_witness :
    mapGet abcState.tasks "A" = some schedA ∧
    schedA.attempts + 1 < cfgD.maxRetries ∧
    failTask cfgD "A" "boom" 10 abcState = .ok retryState1 ∧
    ({ id := 3, kind := .retry, taskId := "A", delay := 1000 } : TimerEntry)
      ∈ retryState1.timers := by
  refine ⟨by decide, by decide, ?_, ?_⟩
  · obtain ⟨s', hs', _⟩ :=
      (failTask_retry_policy cfgD "A" "boom" 10 abcState schedA
        (by decide)).1 (by decide)
    have : retryState1 = s' := by
      unfold retryState1
      rw [hs']
      rfl
    rw [this]
    exact hs'
  · exact (by decide :
      ({ id := 3, kind := .retry, taskId := "A", delay := 1000 } : TimerEntry)
        ∈ retryState1.timers)

/-- Counterexample to C9 as stated: resetting a running task to `queued`
via `rescheduleAgentTasks` leaves the armed execution-timeout timer live
(the timer list is untouched and the stored handle survives on the reset
record), so a superseded timer remains able to fire against the now-queued
task. -/
theorem rescheduleAgentTasks_keeps_timer_counterexample :
    (rescheduleAgentTasks "ag" abcState).timers = abcState.timers ∧
    ({ id := 0, kind := .execTimeout, taskId := "A", delay := 60000 }
      : TimerEntry) ∈ (rescheduleAgentTasks "ag" abcState).timers ∧
    mapGet (rescheduleAgentTasks "ag" abcState).tasks "A" = some
      { task := { taskA with
                  status := .queued,
                  assignedAgent := some "ag",
                  startedAt := some 1 },
        agentId := "ag", attempts := 0, timeout := some 0 } := by
  decide

/-- C9 (amended): for an active task holding a live timer handle, the
transitions that supersede the timer — completion, failure (whether it
schedules a retry or fails terminally) and cancellation — all cancel the
prior timer before proceeding, so no timer with that handle survives in the
resulting state; the reassignment reset to `queued` in
`rescheduleAgentTasks`, however, does not cancel the armed timer (final
conjunct). -/
theorem timer_cancellation_policy (cfg : CoordinationConfig) (taskId : String)
    (now : Nat) (s : SchedulerState) (sched : ScheduledTask) (tid : Nat)
    (hsched : mapGet s.tasks taskId = some sched)
    (htid : sched.timeout = some tid)
    (hfresh : tid < s.nextTimerId) :
    (∀ result s', completeTask cfg taskId result now s = .ok s' →
      ∀ e ∈ s'.timers, e.id ≠ tid) ∧
    (∀ err s', failTask cfg taskId err now s = .ok s' →
      ∀ e ∈ s'.timers, e.id ≠ tid) ∧
    (∀ reason, ∀ e ∈ (cancelTask cfg taskId reason now s).timers, e.id ≠ tid) ∧
    (rescheduleAgentTasks "ag" abcState).timers = abcState.timers := by
  refine ⟨?_, ?_, ?_, by decide⟩
  · intro result s' h
    unfold completeTask at h
    rw [hsched] at h
    dsimp only at h
    injection h with h
    subst h
    have hstep : ∀ (st : SchedulerState) (d : String),
        ((∀ e ∈ st.timers, e.id ≠ tid) ∧ tid < st.nextTimerId) →
        ((∀ e ∈ (dependentStep cfg now st d).timers, e.id ≠ tid) ∧
          tid < (dependentStep cfg now st d).nextTimerId) := by
      intro st d hp
      refine ⟨fun e he => ?_, Nat.lt_of_lt_of_le hp.2
        (dependentStep_nextTimerId cfg now st d)⟩
      rcases dependentStep_timers_new cfg now st d he with h1 | h1
      · exact hp.1 e h1
      · rw [h1]
        exact Nat.ne_of_gt hp.2
    refine (foldl_preserve
      (P := fun st : SchedulerState =>
        (∀ e ∈ st.timers, e.id ≠ tid) ∧ tid < st.nextTimerId)
      hstep _ _ ?_).1
    refine ⟨fun e he => ?_, hfresh⟩
    rw [show (clearStoredTimeout s.timers sched.timeout : List TimerEntry) =
      clearStoredTimeout s.timers (some tid) from by rw [htid]] at he
    exact (mem_clearStoredTimeout_some.mp he).2
  · intro err s' h
    unfold failTask at h
    rw [hsched] at h
    dsimp only at h
    by_cases hlt : sched.attempts + 1 < cfg.maxRetries
    · rw [if_pos hlt] at h
      injection h with h
      subst h
      intro e he
      rcases List.mem_append.mp he with h1 | h1
      · rw [show (clearStoredTimeout s.timers sched.timeout : List TimerEntry) =
          clearStoredTimeout s.timers (some tid) from by rw [htid]] at h1
        exact (mem_clearStoredTimeout_some.mp h1).2
      · rw [List.mem_singleton.mp h1]
        exact Nat.ne_of_gt hfresh
    · rw [if_neg hlt] at h
      injection h with h
      subst h
      unfold cancelDependentTasks
      refine foldl_preserve
        (P := fun st : SchedulerState => ∀ e ∈ st.timers, e.id ≠ tid)
        (fun st d hp e he =>
          hp e (cancelTaskF_timers_sub cfg _ d _ now st e he)) _ _ ?_
      intro e he
      rw [show (clearStoredTimeout s.timers sched.timeout : List TimerEntry) =
        clearStoredTimeout s.timers (some tid) from by rw [htid]] at he
      exact (mem_clearStoredTimeout_some.mp he).2
  · intro reason
    unfold cancelTask cancelTaskF
    rw [hsched]
    dsimp only
    refine foldl_preserve
      (P := fun st : SchedulerState => ∀ e ∈ st.timers, e.id ≠ tid)
      (fun st d hp e he =>
        hp e (cancelTaskF_timers_sub cfg _ d _ now st e he)) _ _ ?_
    intro e he
    rw [show (clearStoredTimeout s.timers sched.timeout : List TimerEntry) =
      clearStoredTimeout s.timers (some tid) from by rw [htid]] at he
    exact (mem_clearStoredTimeout_some.mp he).2

/-- Witness for C9 (amended): cancelling the active `A` (armed timer handle
0) leaves no timer with id 0. -/
theorem timer_cancellation_policy_witness :
    mapGet abcState.tasks "A" = some schedA ∧ schedA.timeout = some 0 ∧
    0 < abcState.nextTimerId ∧
    ({ id := 0, kind := .execTimeout, taskId := "A", delay := 60000 }
      : TimerEntry) ∉ (cancelTask cfgD "A" "halt2" 9 abcState).timers :=
  ⟨by decide, by decide, by decide,
   fun hmem => ((timer_cancellation_policy cfgD "A" 9 abcState schedA 0
     (by decide) (by decide) (by decide)).2.2.1 "halt2" _ hmem) rfl⟩

/-! ### Exclusivity of the active and completed indices -/

/-- A task id appears in at most one of the active-task index and the
completed-id set. -/
def Exclusive (s : SchedulerState) : Prop :=
  ∀ p ∈ s.tasks, p.1 ∉ s.completedTasks

theorem exclusive_notMem {s : SchedulerState} (hx : Exclusive s) {j : String}
    (hj : (mapGet s.tasks j).isSome) : j ∉ s.completedTasks := by
  obtain ⟨v, hv⟩ := Option.isSome_iff_exists.mp hj
  exact hx (j, v) (mem_of_mapGet_eq_some hv)

theorem exclusive_of {s' : SchedulerState}
    (h : ∀ j, (mapGet s'.tasks j).isSome → j ∉ s'.completedTasks) :
    Exclusive s' :=
  fun p hp => h p.1 (isSome_mapGet_of_mem hp)

theorem isSome_mapGet_mapDelete {α : Type} {m : List (String × α)}
    {k j : String} (hj : (mapGet (mapDelete m k) j).isSome) :
    j ≠ k ∧ (mapGet m j).isSome := by
  by_cases hje : j = k
  · subst hje
    rw [mapGet_mapDelete_self] at hj
    simp at hj
  · rw [mapGet_mapDelete_ne _ hje] at hj
    exact ⟨hje, hj⟩

theorem cancelTaskF_tasks_isSome_mono (cfg : CoordinationConfig) (fuel : Nat)
    (taskId reason : String) (now : Nat) (s : SchedulerState) (j : String)
    (hj : (mapGet (cancelTaskF cfg fuel taskId reason now s).tasks j).isSome) :
    (mapGet s.tasks j).isSome := by
  by_cases hn : mapGet s.tasks j = none
  · rw [cancelTaskF_tasks_none cfg fuel taskId reason now s j hn] at hj
    simp at hj
  · exact Option.ne_none_iff_isSome.mp hn

theorem assignTask_ok_eq {cfg : CoordinationConfig} {t : Task}
    {agentId : String} {now : Nat} {s s' : SchedulerState}
    (h : assignTask cfg t agentId now s = .ok s') :
    s' = registerTask cfg t agentId now s := by
  unfold assignTask at h
  by_cases hl : 0 < t.dependencies.length
  · rw [if_pos hl] at h
    dsimp only at h
    by_cases hu : 0 < (t.dependencies.filter
        (fun depId => decide (depId ∉ s.completedTasks))).length
    · rw [if_pos hu] at h
      exact absurd h (by simp)
    · rw [if_neg hu] at h
      injection h with h
      exact h.symm
  · rw [if_neg hl] at h
    injection h with h
    exact h.symm

theorem registerTask_tasks_isSome (cfg : CoordinationConfig) (t : Task)
    (agentId : String) (now : Nat) (s : SchedulerState) (j : String)
    (hj : (mapGet (registerTask cfg t agentId now s).tasks j).isSome) :
    j = t.id ∨ (mapGet s.tasks j).isSome := by
  unfold registerTask at hj
  dsimp only at hj
  rw [startTask_tasks_isSome] at hj
  exact isSome_of_mapGet_mapSet _ hj

theorem registerTask_completedTasks (cfg : CoordinationConfig) (t : Task)
    (agentId : String) (now : Nat) (s : SchedulerState) :
    (registerTask cfg t agentId now s).completedTasks = s.completedTasks := by
  unfold registerTask
  dsimp only
  rw [startTask_completedTasks]

theorem completeTask_ok_parts {cfg : CoordinationConfig} {taskId : String}
    {result now : Nat} {s s' : SchedulerState}
    (h : completeTask cfg taskId result now s = .ok s') :
    (∀ j, (mapGet s'.tasks j).isSome →
      j ≠ taskId ∧ (mapGet s.tasks j).isSome) ∧
    s'.completedTasks = setAdd s.completedTasks taskId := by
  unfold completeTask at h
  cases hm : mapGet s.tasks taskId with
  | none =>
    rw [hm] at h
    exact absurd h (by simp)
  | some sched =>
    rw [hm] at h
    dsimp only at h
    injection h with h
    subst h
    constructor
    · intro j
      refine foldl_preserve
        (P := fun st : SchedulerState => (mapGet st.tasks j).isSome →
          j ≠ taskId ∧ (mapGet s.tasks j).isSome)
        (fun st d hp hj =>
          hp (by rw [← dependentStep_tasks_isSome cfg now st d j]; exact hj))
        _ _ ?_
      exact fun hj => isSome_mapGet_mapDelete hj
    · refine foldl_preserve
        (P := fun st : SchedulerState =>
          st.completedTasks = setAdd s.completedTasks taskId)
        (fun st d hp => ?_) _ _ ?_
      · show (dependentStep cfg now st d).completedTasks =
          setAdd s.completedTasks taskId
        rw [dependentStep_completedTasks]
        exact hp
      · rfl

theorem failTask_ok_parts {cfg : CoordinationConfig} {taskId err : String}
    {now : Nat} {s s' : SchedulerState}
    (h : failTask cfg taskId err now s = .ok s') :
    s'.completedTasks = s.completedTasks ∧
    (∀ j, (mapGet s'.tasks j).isSome → (mapGet s.tasks j).isSome) := by
  unfold failTask at h
  cases hm : mapGet s.tasks taskId with
  | none =>
    rw [hm] at h
    exact absurd h (by simp)
  | some sched =>
    rw [hm] at h
    dsimp only at h
    by_cases hlt : sched.attempts + 1 < cfg.maxRetries
    · rw [if_pos hlt] at h
      injection h with h
      subst h
      refine ⟨rfl, fun j hj => ?_⟩
      rw [isSome_mapGet_mapSet_of_isSome s.tasks _ (by rw [hm]; rfl) j] at hj
      exact hj
    · rw [if_neg hlt] at h
      injection h with h
      subst h
      unfold cancelDependentTasks
      constructor
      · refine foldl_preserve
          (P := fun st : SchedulerState =>
            st.completedTasks = s.completedTasks)
          (fun st d hp => (cancelTaskF_completedTasks cfg _ d _ now st).trans hp)
          _ _ ?_
        rfl
      · intro j
        refine foldl_preserve
          (P := fun st : SchedulerState =>
            (mapGet st.tasks j).isSome → (mapGet s.tasks j).isSome)
          (fun st d hp hj =>
            hp (cancelTaskF_tasks_isSome_mono cfg _ d _ now st j hj)) _ _ ?_
        exact fun hj => (isSome_mapGet_mapDelete hj).2

theorem rescheduleStep_completedTasks (st : SchedulerState) (d : String) :
    (rescheduleStep st d).completedTasks = st.completedTasks := by
  unfold rescheduleStep
  split
  · split
    · rfl
    · rfl
  · rfl

theorem rescheduleStep_tasks_isSome (st : SchedulerState) (d : String)
    (j : String) :
    (mapGet (rescheduleStep st d).tasks j).isSome =
      (mapGet st.tasks j).isSome := by
  unfold rescheduleStep
  split
  · next sched hm =>
    split
    · exact isSome_mapGet_mapSet_of_isSome _ _ (by rw [hm]; rfl) j
    · rfl
  · rfl

/-- State after assigning the dependency-free `A` on the empty scheduler. -/
def exState1 : SchedulerState :=
  ((assignTask cfgD taskA "ag" 1 SchedulerState.empty).toOption).getD
    SchedulerState.empty

/-- State after completing `A`. -/
def exState2 : SchedulerState :=
  ((completeTask cfgD "A" 0 2 exState1).toOption).getD SchedulerState.empty

/-- State after re-assigning the already-completed id `A`. -/
def exState3 : SchedulerState :=
  ((assignTask cfgD taskA "ag" 3 exState2).toOption).getD SchedulerState.empty

set_option maxRecDepth 100000 in
/-- Counterexample to C6 as stated: re-assigning a task whose id is already
in the completed-id set succeeds (the code never checks for this) and lands
the id in the active-task index while it stays in the completed-id set —
a reachable state where the exclusivity invariant fails. -/
theorem task_in_both_indices_counterexample :
    assignTask cfgD taskA "ag" 1 SchedulerState.empty = .ok exState1 ∧
    completeTask cfgD "A" 0 2 exState1 = .ok exState2 ∧
    assignTask cfgD taskA "ag" 3 exState2 = .ok exState3 ∧
    (mapGet exState3.tasks "A").isSome = true ∧
    "A" ∈ exState3.completedTasks := by
  decide

set_option maxRecDepth 8192 in
/-- C6 (amended): every public operation preserves the exclusivity of the
active-task index and the completed-id set, with the proviso the
counterexample forces on `assignTask`: the assigned task's id must not
already be in the completed-id set (the code does not check this case, and
re-assigning a completed id breaks exclusivity). -/
theorem exclusivity_preserved (cfg : CoordinationConfig) (s : SchedulerState)
    (hx : Exclusive s) :
    (∀ (t : Task) (agentId : String) (now : Nat) (s' : SchedulerState),
      t.id ∉ s.completedTasks → assignTask cfg t agentId now s = .ok s' →
      Exclusive s') ∧
    (∀ (taskId : String) (result now : Nat) (s' : SchedulerState),
      completeTask cfg taskId result now s = .ok s' → Exclusive s') ∧
    (∀ (taskId err : String) (now : Nat) (s' : SchedulerState),
      failTask cfg taskId err now s = .ok s' → Exclusive s') ∧
    (∀ (taskId reason : String) (now : Nat),
      Exclusive (cancelTask cfg taskId reason now s)) ∧
    (∀ agentId : String, Exclusive (rescheduleAgentTasks agentId s)) ∧
    Exclusive (cleanup s) := by
  refine ⟨?_, ?_, ?_, ?_, ?_, ?_⟩
  · intro t agentId now s' ht h
    have he := assignTask_ok_eq h
    subst he
    apply exclusive_of
    intro j hj
    rw [registerTask_completedTasks]
    rcases registerTask_tasks_isSome cfg t agentId now s j hj with heq | hjs
    · subst heq
      exact ht
    · exact exclusive_notMem hx hjs
  · intro taskId result now s' h
    obtain ⟨hprof, hcomp⟩ := completeTask_ok_parts h
    apply exclusive_of
    intro j hj
    obtain ⟨hne, hjs⟩ := hprof j hj
    rw [hcomp]
    intro hmem
    rcases mem_setAdd.mp hmem with hmem' | heq
    · exact exclusive_notMem hx hjs hmem'
    · exact hne heq
  · intro taskId err now s' h
    obtain ⟨hcomp, hprof⟩ := failTask_ok_parts h
    apply exclusive_of
    intro j hj
    rw [hcomp]
    exact exclusive_notMem hx (hprof j hj)
  · intro taskId reason now
    apply exclusive_of
    intro j hj
    unfold cancelTask at hj ⊢
    rw [cancelTaskF_completedTasks]
    exact exclusive_notMem hx
      (cancelTaskF_tasks_isSome_mono cfg _ taskId reason now s j hj)
  · intro agentId
    unfold rescheduleAgentTasks
    split
    · exact hx
    · next taskIds hm =>
      split
      · exact hx
      · apply exclusive_of
        intro j hj
        have hcomp := foldl_preserve
          (P := fun st : SchedulerState => st.completedTasks = s.completedTasks)
          (fun st d hp => (rescheduleStep_completedTasks st d).trans hp)
          taskIds s rfl
        have hprof := foldl_preserve
          (P := fun st : SchedulerState =>
            (mapGet st.tasks j).isSome = (mapGet s.tasks j).isSome)
          (fun st d hp => (rescheduleStep_tasks_isSome st d j).trans hp)
          taskIds s rfl
        rw [hcomp]
        rw [hprof] at hj
        exact exclusive_notMem hx hj
  · unfold cleanup
    by_cases hlen : 1000 < s.completedTasks.length
    · rw [if_pos hlen]
      dsimp only
      apply exclusive_of
      intro j hj
      have htasks := foldl_preserve
        (P := fun st : SchedulerState => st.tasks = s.tasks)
        (fun st r hp => (evictStep_tasks st r).trans hp)
        (s.completedTasks.take (s.completedTasks.length - 1000)) s rfl
      have hsub := foldl_preserve
        (P := fun st : SchedulerState =>
          ∀ x, x ∈ st.completedTasks → x ∈ s.completedTasks)
        (fun st r hp x hmem => hp x (evictStep_completed_sub st r hmem))
        (s.completedTasks.take (s.completedTasks.length - 1000)) s
        (fun x hmem => hmem)
      rw [htasks] at hj
      intro hmem
      exact exclusive_notMem hx hj (hsub j hmem)
    · rw [if_neg hlen]
      exact hx

/-- Witness for C6 (amended): exclusivity of `abcState` is preserved by
cancelling `A`. -/
theorem exclusivity_preserved_witness :
    Exclusive abcState ∧
    Exclusive (cancelTask cfgD "A" "halt3" 9 abcState) :=
  ⟨by unfold Exclusive; decide,
   (exclusivity_preserved cfgD abcState
     (by unfold Exclusive; decide)).2.2.2.1 "A" "halt3" 9⟩

end Scheduler
